import Mathlib

set_option maxRecDepth 10000
set_option synthInstance.maxSize 1000

/-!
Verification of the core agents of the medical-diagnosis pipeline
(`src/agents/causal_discovery.py`, `src/agents/knowledge_synthesis.py`,
`src/agents/decision_making.py`).

Shallow embedding conventions:
* Python `str` is Lean `String` (a list of characters); indexing/slicing is
  by code point, matching Python semantics.
* Python floats are embedded as `ℚ` where only field arithmetic occurs
  (edge weights, probabilities, scores) and as `ℝ` where `np.log` /
  `np.linalg.norm` are involved (fit scores, similarity vectors).
* The SQLite stores are embedded as explicit lookup data passed to the
  functions: the co-occurrence matrix as a lookup function, the transition
  matrix as a list of rows.
* `list.sort` / `sorted` in Python is a stable sort; it is embedded as a
  structurally recursive stable insertion sort (`py_sort`), which computes
  the same function as any stable sort with the same comparator.
* Python `round(x, n)` is embedded as rounding to the nearest multiple of
  `10^(-n)` (the embedded inputs never hit exact ties, where Python's
  bankers' rounding could differ).
-/

/-! ## Python string primitives -/

/-- Python `\s` (ASCII range), used by `re.sub(r',\s*}')` etc. -/
def py_space (c : Char) : Bool :=
  c = ' ' ∨ c = '\t' ∨ c = '\n' ∨ c = '\x0d' ∨ c = '\x0b' ∨ c = '\x0c'

/-- Python whitespace stripped by `str.rstrip()` (ASCII range). -/
def py_strip_space (c : Char) : Bool := py_space c

/-- Python `hay.rfind(c)` for a one-character needle: the greatest index of
`c` in the list, `-1` if absent. -/
def py_rfind : List Char → Char → ℤ
  | [], _ => -1
  | a :: as, c =>
    let r := py_rfind as c
    if 0 ≤ r then r + 1 else if a = c then 0 else -1

/-- Python `str.rstrip()` on a character list: drop trailing whitespace. -/
def py_rstrip (l : List Char) : List Char :=
  (l.reverse.dropWhile py_strip_space).reverse

/-- Python `sub in hay` for strings: contiguous-substring test. -/
def str_contains (hay sub : String) : Bool :=
  decide (sub.data <:+: hay.data)

/-- Python slicing `s[:n]`: the first `n` code points. -/
def py_take (s : String) (n : ℕ) : String := String.mk (s.data.take n)

/-- Python `str.lower()` (ASCII range, codes are ASCII in this data set). -/
def py_lower (s : String) : String := String.mk (s.data.map Char.toLower)

/-! ## KnowledgeSynthesisAgent._generate_summary
(`src/agents/knowledge_synthesis.py`, lines 138-166). -/

/-- `max(truncated.rfind('.'), truncated.rfind('!'), truncated.rfind('?'))`
over the first `max_chars` characters of `content`. -/
def last_terminator (content : String) (max_chars : ℕ) : ℤ :=
  let truncated := py_take content max_chars
  max (py_rfind truncated.data '.')
    (max (py_rfind truncated.data '!') (py_rfind truncated.data '?'))

/-- Embedding of `KnowledgeSynthesisAgent._generate_summary(content, max_chars=200)`:
verbatim when short, otherwise truncate the first `max_chars` characters at
the last sentence terminator; if `rfind` finds none at a positive index,
right-strip and append `"..."`. -/
def generate_summary (content : String) (max_chars : ℕ := 200) : String :=
  if content.length ≤ max_chars then content
  else
    let truncated := py_take content max_chars
    let last_period := last_terminator content max_chars
    if 0 < last_period then py_take truncated (last_period + 1).toNat
    else String.mk (py_rstrip truncated.data) ++ "..."

/-! ## KnowledgeSynthesisAgent._cosine_similarity
(`src/agents/knowledge_synthesis.py`, lines 118-136). -/

/-- `np.dot` on equal-length 1-d vectors. -/
noncomputable def np_dot (a b : List ℝ) : ℝ :=
  ((a.zip b).map (fun p => p.1 * p.2)).sum

/-- `np.linalg.norm`: the Euclidean norm. -/
noncomputable def np_norm (v : List ℝ) : ℝ :=
  Real.sqrt ((v.map (fun x => x ^ 2)).sum)

/-- Embedding of `KnowledgeSynthesisAgent._cosine_similarity(vec1, vec2)`:
`0.0` when either norm is zero, else `max(0.0, min(1.0, dot/(norm1*norm2)))`. -/
noncomputable def cosine_similarity (a b : List ℝ) : ℝ :=
  if np_norm a = 0 ∨ np_norm b = 0 then 0
  else max 0 (min 1 (np_dot a b / (np_norm a * np_norm b)))

/-! ## Stable sort (embedding of Python `sorted` / `list.sort`) -/

/-- Stable insert: `x` goes before the first element `y` with `le x y`.
Since `x` originates earlier in the input than the already-sorted tail,
this reproduces the stability of Python's sort. -/
def py_insert (le : α → α → Bool) (x : α) : List α → List α
  | [] => [x]
  | y :: ys => if le x y then x :: y :: ys else y :: py_insert le x ys

/-- Stable insertion sort; extensionally equal to Python's stable `sorted`
for any total preorder comparator. -/
def py_sort (le : α → α → Bool) : List α → List α
  | [] => []
  | x :: xs => py_insert le x (py_sort le xs)

/-! ## CausalDiscoveryAgent (`src/agents/causal_discovery.py`)

The graph dictionaries are embedded as structures; the edge dict keys
`"from"` / `"to"` become fields `src` / `dst` (`from` is a Lean keyword).
The SQLite `diagnosis_matrix` is a lookup `CoDb` from an ordered disease
pair to `(co_occurrence_count, total_patients)`; the `transition_matrix`
is a list of rows. -/

structure Node where
  id : String
deriving DecidableEq

structure Edge where
  src : String
  dst : String
  weight : ℚ
  fit_score : Option ℝ := none
  clinician_added : Bool := false
  clinician_reversed : Bool := false
  reason : Option String := none

/-- A record of `modification_history` appended by `iterative_refine`. -/
structure ModRec where
  iteration : ℕ
  edge : String
  reason : String
  old_weight : ℚ
  new_weight : ℚ
deriving DecidableEq

structure Dag where
  nodes : List Node := []
  edges : List Edge := []
  global_fit : Option ℝ := none
  modification_history : List ModRec := []

/-- The `diagnosis_matrix` table: `(disease_a, disease_b) ↦ (co_occurrence_count,
total_patients)`, `none` when no row exists. -/
def CoDb := String → String → Option (ℕ × ℕ)

/-- One row of the `transition_matrix` table. -/
structure TRow where
  from_d : String
  to_d : String
  prob : ℚ
deriving DecidableEq

/-- The fit score `fit_graph_with_data` assigns to the edge `(src, dst)`:
`ln(count/total)` when positive, `-10.0` for a zero probability or zero
total, `-5.0` when no co-occurrence row exists. -/
noncomputable def edge_fit_score (db : CoDb) (src dst : String) : ℝ :=
  match db src dst with
  | some (co, total) =>
    if 0 < total then
      let prob : ℝ := (co : ℝ) / (total : ℝ)
      if 0 < prob then Real.log prob else -10
    else -10
  | none => -5

/-- Embedding of `CausalDiscoveryAgent.fit_graph_with_data(dag)`
(lines 143-197): store a fit score on every edge and the sum of all edge
fit scores in `global_fit`. -/
noncomputable def fit_graph_with_data (db : CoDb) (dag : Dag) : Dag :=
  { dag with
    edges := dag.edges.map (fun e => { e with fit_score := some (edge_fit_score db e.src e.dst) })
    global_fit := some ((dag.edges.map (fun e => edge_fit_score db e.src e.dst)).sum) }

/-- The fixed causal-phrase lexicon of `iterative_refine` (lines 219-226). -/
def causal_phrases : List String :=
  ["cause", "causes", "caused by",
   "risk factor", "risk factors",
   "leads to", "lead to",
   "associated with", "association with",
   "progression to", "progresses to",
   "results in", "result in"]

/-- A document summary dict as consumed by `iterative_refine` and
`DecisionMakingAgent` (all standard keys present, as produced by
`KnowledgeSynthesisAgent.retrieve_and_summarize`). -/
structure Summary where
  doc_id : String := ""
  disease_code : String := ""
  section' : String := ""
  summary : String := ""
  content : String := ""
  similarity : ℚ := 0
deriving DecidableEq

/-- The first entry of `causal_phrases` contained in `content`
(the inner `for phrase in causal_phrases: if phrase in content: ... break`). -/
def find_causal_phrase (content : String) : Option String :=
  causal_phrases.find? (fun p => str_contains content p)

/-- One summary's effect on one edge inside a refinement pass: if the
summary's disease code matches an endpoint (case-insensitively) and its
content contains a causal phrase, boost the weight by 20 % (clamped to 1)
and emit a modification record. -/
def boost_with_summary (iteration : ℕ) (e : Edge) (s : Summary) : Edge × Option ModRec :=
  let content := (py_lower s.content)
  let code := (py_lower s.disease_code)
  if code = (py_lower e.src) ∨ code = (py_lower e.dst) then
    match find_causal_phrase content with
    | some phrase =>
      let old := e.weight
      let w := min 1 (old * (6 / 5))
      ({ e with weight := w },
       some { iteration := iteration,
              edge := e.src ++ " -> " ++ e.dst,
              reason := "Found causal phrase '" ++ phrase ++ "' in " ++ code ++ " document",
              old_weight := old, new_weight := w })
    | none => (e, none)
  else (e, none)

/-- The inner `for summary in summaries` loop of a refinement pass for a
single edge, threading the (mutated-in-place) edge through the summaries. -/
def refine_edge (iteration : ℕ) : List Summary → Edge → Edge × List ModRec
  | [], e => (e, [])
  | s :: ss, e =>
    let r := boost_with_summary iteration e s
    let rest := refine_edge iteration ss r.1
    (rest.1, r.2.toList ++ rest.2)


/-- One full pass of `iterative_refine` over all edges, returning the
updated edges and the modification records of the pass. -/
def refine_pass (iteration : ℕ) (summaries : List Summary) (edges : List Edge) :
    List Edge × List ModRec :=
  let results := edges.map (refine_edge iteration summaries)
  (results.map Prod.fst, (results.map Prod.snd).flatten)

/-- The `for iteration in range(max_iter)` loop of `iterative_refine`:
after a pass with modifications, recompute `fit_graph_with_data` and
continue; after a pass with no modifications, stop early. -/
noncomputable def refine_loop (db : CoDb) (summaries : List Summary) :
    ℕ → ℕ → Dag → List ModRec → Dag × List ModRec
  | 0, _, dag, hist => (dag, hist)
  | fuel + 1, iteration, dag, hist =>
    let r := refine_pass iteration summaries dag.edges
    let dag' := { dag with edges := r.1 }
    if r.2.isEmpty then (dag', hist)
    else refine_loop db summaries fuel (iteration + 1) (fit_graph_with_data db dag') (hist ++ r.2)

/-- Embedding of `CausalDiscoveryAgent.iterative_refine(dag, summaries,
max_iter=3)` (lines 199-272). -/
noncomputable def iterative_refine (db : CoDb) (dag : Dag) (summaries : List Summary)
    (max_iter : ℕ := 3) : Dag :=
  let r := refine_loop db summaries max_iter 0 dag []
  { r.1 with modification_history := r.2 }

/-- `reverse_edge`: swap the endpoints of the first edge matching
`(from_disease, to_disease)` and tag it (the `break` limits the loop to the
first match). -/
def reverse_first (from_disease to_disease reason : String) : List Edge → List Edge
  | [] => []
  | e :: es =>
    if e.src = from_disease ∧ e.dst = to_disease then
      { e with src := to_disease, dst := from_disease,
               clinician_reversed := true, reason := some reason } :: es
    else e :: reverse_first from_disease to_disease reason es

/-- Embedding of `CausalDiscoveryAgent.apply_clinician_edit(dag, action,
from_disease, to_disease, reason)` (lines 274-338). Note `node_ids` is
snapshotted before the node appends, and `remove_edge` is a list
comprehension filtering out every matching edge. -/
noncomputable def apply_clinician_edit (db : CoDb) (dag : Dag) (action : String)
    (from_disease to_disease reason : String) : Dag :=
  let p :
      List Edge × List Node :=
    if action = "add_edge" then
      let edges := dag.edges ++
        [{ src := from_disease, dst := to_disease, weight := 4 / 5,
           clinician_added := true, reason := some reason }]
      let node_ids := dag.nodes.map Node.id
      let nodes := dag.nodes ++
        (if from_disease ∈ node_ids then [] else [⟨from_disease⟩]) ++
        (if to_disease ∈ node_ids then [] else [⟨to_disease⟩])
      (edges, nodes)
    else if action = "remove_edge" then
      (dag.edges.filter (fun e => ¬(e.src = from_disease ∧ e.dst = to_disease)), dag.nodes)
    else if action = "reverse_edge" then
      (reverse_first from_disease to_disease reason dag.edges, dag.nodes)
    else (dag.edges, dag.nodes)
  fit_graph_with_data db { dag with edges := p.1, nodes := p.2 }

/-! ## CausalDiscoveryAgent.build_candidate_set (lines 36-94) -/

/-- The SQL query `SELECT to_disease, transition_prob FROM transition_matrix
WHERE from_disease = ? AND transition_prob > ? ORDER BY transition_prob DESC`. -/
def query_transitions (tm : List TRow) (disease : String) (eps : ℚ) : List (String × ℚ) :=
  (py_sort (fun a b => decide (b.prob ≤ a.prob))
      (tm.filter (fun r => r.from_d = disease ∧ eps < r.prob))).map
    (fun r => (r.to_d, r.prob))

/-- The dict update `if to_disease not in candidates or prob >
candidates[to_disease]: candidates[to_disease] = prob` (keep the maximum,
first writer fixes the key's position). -/
def upsert_candidate : List (String × ℚ) → String → ℚ → List (String × ℚ)
  | [], k, p => [(k, p)]
  | (k', p') :: rest, k, p =>
    if k' = k then (if p' < p then (k, p) else (k', p')) :: rest
    else (k', p') :: upsert_candidate rest k p

/-- Folding a list of `(to_disease, prob)` rows into the candidates dict. -/
def upsert_all (m : List (String × ℚ)) (ps : List (String × ℚ)) : List (String × ℚ) :=
  ps.foldl (fun m' tp => upsert_candidate m' tp.1 tp.2) m

/-- The candidates dict of `build_candidate_set` after both query loops,
sorted by probability descending (`sorted(candidates.items(), key=prob,
reverse=True)`). -/
def build_candidate_pairs (tm : List TRow) (current_diseases : List String) (eps : ℚ) :
    List (String × ℚ) :=
  let cands := current_diseases.foldl
    (fun acc d => upsert_all acc (query_transitions tm d eps)) []
  py_sort (fun a b => decide (b.2 ≤ a.2)) cands

/-- Embedding of `CausalDiscoveryAgent.build_candidate_set` given the
distinct diagnoses of the visit: the candidate codes sorted by probability
descending. -/
def build_candidate_set (tm : List TRow) (current_diseases : List String)
    (eps : ℚ := 1 / 100) : List String :=
  (build_candidate_pairs tm current_diseases eps).map Prod.fst

/-! ## DecisionMakingAgent (`src/agents/decision_making.py`)

### Deterministic fallback (`_deterministic_fallback`, lines 275-374) -/

/-- Python `round(x, 3)` embedded over `ℚ`. -/
def round3 (q : ℚ) : ℚ := (round (q * 1000) : ℚ) / 1000

/-- Python `f"{x:.2f}"` formatting embedded over `ℚ`. -/
def format2dp (q : ℚ) : String :=
  let n : ℤ := round (q * 100)
  let sign := if n < 0 then "-" else ""
  let a := n.natAbs
  sign ++ toString (a / 100) ++ "." ++ (if a % 100 < 10 then "0" else "") ++ toString (a % 100)

/-- One scored candidate of the deterministic fallback (`rank` is assigned
after sorting; `0` stands for the not-yet-assigned state). -/
structure PredEntry where
  code : String
  score : ℚ
  transition_score : ℚ
  doc_similarity : ℚ
  dag_score : ℚ
  clinician_boost : ℚ
  rank : ℕ := 0
deriving DecidableEq

/-- One evidence entry of the fallback result. -/
structure Evidence where
  doc_id : String
  disease_code : String
  snippet : String
  similarity : ℚ
deriving DecidableEq

/-- The result dict of `rank_and_explain` on the structured paths
(no-candidates early return and deterministic fallback). -/
structure RankResult where
  predictions : List PredEntry
  explanation : String
  evidence : List Evidence
  dag : Dag
  fallback : Bool

/-- The `similarity_map` update: first occurrence fixes the key, later
occurrences keep the maximum similarity. -/
def upsert_sim : List (String × ℚ) → String → ℚ → List (String × ℚ)
  | [], k, v => [(k, v)]
  | (k', v') :: rest, k, v =>
    if k' = k then (k', max v' v) :: rest else (k', v') :: upsert_sim rest k v

/-- The `similarity_map` built from the summaries (lines 289-296). -/
def build_similarity_map (summaries : List Summary) : List (String × ℚ) :=
  summaries.foldl (fun m s => upsert_sim m s.disease_code s.similarity) []

/-- Python `dict.get(k, d)` on an association list with unique keys. -/
def dict_get (m : List (String × ℚ)) (k : String) (d : ℚ) : ℚ :=
  match m.find? (fun kv => kv.1 == k) with
  | some kv => kv.2
  | none => d

/-- The clinician boost of a candidate: `0.2` when the non-empty comment
mentions the code or any fixed keyword, else `0.0` (lines 303-312). -/
def clinician_boost_for (clinician_comment code : String) : ℚ :=
  if clinician_comment ≠ "" then
    let cl := (py_lower clinician_comment)
    if str_contains cl (py_lower code) ∨
        (["kidney", "heart", "diabetes", "hypertension"].any fun kw => str_contains cl kw) then
      1 / 5
    else 0
  else 0

/-- The DAG support score of a candidate: max weight over edges touching the
code, starting from `0.0` (lines 314-318). -/
def dag_score_for (dag : Dag) (code : String) : ℚ :=
  dag.edges.foldl (fun acc e => if e.dst = code ∨ e.src = code then max acc e.weight else acc) 0

/-- Scoring one `(disease_code, transition_score)` candidate
(lines 300-333): `final_score = 0.6*transition + 0.3*doc_similarity +
0.1*clinician_boost`, every reported field rounded to 3 decimals. -/
def score_candidate (sim_map : List (String × ℚ)) (clinician_comment : String) (dag : Dag)
    (c : String × ℚ) : PredEntry :=
  let doc_similarity := dict_get sim_map c.1 0
  let clinician_boost := clinician_boost_for clinician_comment c.1
  let dag_score := dag_score_for dag c.1
  let final_score := (3 / 5) * c.2 + (3 / 10) * doc_similarity + (1 / 10) * clinician_boost
  { code := c.1, score := round3 final_score, transition_score := round3 c.2,
    doc_similarity := round3 doc_similarity, dag_score := round3 dag_score,
    clinician_boost := round3 clinician_boost }

/-- `for rank, candidate in enumerate(scored_candidates, 1)`: sequential
ranks starting at `n`. -/
def assign_ranks : ℕ → List PredEntry → List PredEntry
  | _, [] => []
  | n, c :: cs => { c with rank := n } :: assign_ranks (n + 1) cs

/-- Embedding of `DecisionMakingAgent._deterministic_fallback(patient_summary,
candidates, dag, summaries, clinician_comment)` (lines 275-374). -/
def deterministic_fallback (patient_summary : String) (candidates : List (String × ℚ))
    (dag : Dag) (summaries : List Summary) (clinician_comment : String) : RankResult :=
  let sim_map := build_similarity_map summaries
  let scored := candidates.map (score_candidate sim_map clinician_comment dag)
  let sorted := py_sort (fun a b => decide (b.score ≤ a.score)) scored
  let ranked := assign_ranks 1 sorted
  let explanation :=
    match ranked.head? with
    | some top =>
      let base := "Based on transition probability (" ++ format2dp top.transition_score ++
        ") and document evidence (" ++ format2dp top.doc_similarity ++ "), " ++
        top.code ++ " is the most likely progression. "
      if clinician_comment ≠ "" then
        base ++ "Clinician input considered: " ++ py_take clinician_comment 100
      else base
    | none => "No clear progression identified."
  { predictions := ranked.take 10,
    explanation := py_take explanation 800,
    evidence := (summaries.take 5).map fun s =>
      { doc_id := s.doc_id, disease_code := s.disease_code,
        snippet := py_take s.summary 150, similarity := round3 s.similarity },
    dag := dag, fallback := true }

/-! ### Model-output parsing (`_parse_model_output` / `_clean_invalid_tokens`,
lines 169-273)

Python values produced by `json.loads` are embedded as `PyVal` (`int` and
`float` merged into `ℚ`; dict insertion order retained, duplicate keys
last-wins). An uncaught Python exception (here: the `TypeError` raised by
`key in result` on a non-container) is `Except.error ()`. -/

inductive PyVal where
  | none_ : PyVal
  | bool : Bool → PyVal
  | num : ℚ → PyVal
  | str : String → PyVal
  | list : List PyVal → PyVal
  | dict : List (String × PyVal) → PyVal

/-- Python dict item assignment `d[k] = v`: replace in place or append. -/
def py_dict_set (kvs : List (String × PyVal)) (k : String) (v : PyVal) :
    List (String × PyVal) :=
  if kvs.any (fun kv => kv.1 == k) then
    kvs.map (fun kv => if kv.1 == k then (k, v) else kv)
  else kvs ++ [(k, v)]

mutual

/-- Python `==` on parsed JSON values (`True == 1`; dict comparison is
embedded structurally, which agrees with Python on the values that occur
here). -/
def py_eq : PyVal → PyVal → Bool
  | .none_, .none_ => true
  | .bool a, .bool b => a == b
  | .bool a, .num q => (if a then (1 : ℚ) else 0) == q
  | .num q, .bool a => q == (if a then (1 : ℚ) else 0)
  | .num a, .num b => a == b
  | .str a, .str b => a == b
  | .list a, .list b => py_eq_list a b
  | .dict a, .dict b => py_eq_dict a b
  | _, _ => false

def py_eq_list : List PyVal → List PyVal → Bool
  | [], [] => true
  | x :: xs, y :: ys => py_eq x y && py_eq_list xs ys
  | _, _ => false

def py_eq_dict : List (String × PyVal) → List (String × PyVal) → Bool
  | [], [] => true
  | kv :: xs, kv' :: ys => kv.1 == kv'.1 && py_eq kv.2 kv'.2 && py_eq_dict xs ys
  | _, _ => false

end

/-- JSON whitespace accepted by Python's `json.loads` (`' \t\n\r'`). -/
def json_ws (c : Char) : Bool := c = ' ' ∨ c = '\t' ∨ c = '\n' ∨ c = '\x0d'

def skip_ws (cs : List Char) : List Char := cs.dropWhile json_ws

/-- Value of a hexadecimal digit, for `\uXXXX` escapes. -/
def hex_val (c : Char) : Option ℕ :=
  if c.isDigit then some (c.toNat - 48)
  else if 'a' ≤ c ∧ c ≤ 'f' then some (c.toNat - 87)
  else if 'A' ≤ c ∧ c ≤ 'F' then some (c.toNat - 55)
  else none

/-- The body of a JSON string after the opening quote (strict mode: raw
control characters rejected, standard escapes). Returns the decoded
characters and the input after the closing quote. -/
def parse_json_chars : ℕ → List Char → Option (List Char × List Char)
  | 0, _ => none
  | fuel + 1, cs =>
    match cs with
    | [] => none
    | '"' :: rest => some ([], rest)
    | '\\' :: e :: rest =>
      let esc : Option (Char × List Char) :=
        if e = '"' then some ('"', rest)
        else if e = '\\' then some ('\\', rest)
        else if e = '/' then some ('/', rest)
        else if e = 'b' then some ('\x08', rest)
        else if e = 'f' then some ('\x0c', rest)
        else if e = 'n' then some ('\n', rest)
        else if e = 'r' then some ('\x0d', rest)
        else if e = 't' then some ('\t', rest)
        else if e = 'u' then
          match rest with
          | h1 :: h2 :: h3 :: h4 :: rest' =>
            match hex_val h1, hex_val h2, hex_val h3, hex_val h4 with
            | some a, some b, some c, some d =>
              some (Char.ofNat (((a * 16 + b) * 16 + c) * 16 + d), rest')
            | _, _, _, _ => none
          | _ => none
        else none
      match esc with
      | some (c, rest') =>
        match parse_json_chars fuel rest' with
        | some (tail, r) => some (c :: tail, r)
        | none => none
      | none => none
    | c :: rest =>
      if c.toNat < 32 then none
      else
        match parse_json_chars fuel rest with
        | some (tail, r) => some (c :: tail, r)
        | none => none

def digits_to_nat (ds : List Char) : ℕ := ds.foldl (fun a c => a * 10 + (c.toNat - 48)) 0

/-- A JSON number (`-?(0|[1-9][0-9]*)(\.[0-9]+)?([eE][+-]?[0-9]+)?`),
returned as the exact rational it denotes. -/
def parse_json_number (cs : List Char) : Option (ℚ × List Char) :=
  let p : Bool × List Char := match cs with
    | '-' :: r => (true, r)
    | _ => (false, cs)
  let ids := p.2.takeWhile Char.isDigit
  let cs2 := p.2.dropWhile Char.isDigit
  if ids.isEmpty then none
  else if 1 < ids.length ∧ ids.head? = some '0' then none
  else
    let step1 : Option (ℚ × List Char) :=
      match cs2 with
      | '.' :: r =>
        let fds := r.takeWhile Char.isDigit
        if fds.isEmpty then none
        else some (((digits_to_nat ids * 10 ^ fds.length + digits_to_nat fds : ℚ) /
          (10 ^ fds.length : ℚ)), r.dropWhile Char.isDigit)
      | _ => some ((digits_to_nat ids : ℚ), cs2)
    match step1 with
    | none => none
    | some (base, cs3) =>
      let step2 : Option (ℚ × List Char) :=
        match cs3 with
        | 'e' :: r | 'E' :: r =>
          let q : Bool × List Char := match r with
            | '+' :: r' => (false, r')
            | '-' :: r' => (true, r')
            | _ => (false, r)
          let eds := q.2.takeWhile Char.isDigit
          if eds.isEmpty then none
          else
            let m : ℚ := 10 ^ digits_to_nat eds
            some ((if q.1 then base / m else base * m), q.2.dropWhile Char.isDigit)
        | _ => some (base, cs3)
      match step2 with
      | none => none
      | some (v, cs4) => some ((if p.1 then -v else v), cs4)

/-- The members of a JSON object after the opening brace (non-empty case);
`pv` parses one value. -/
def parse_json_members (pv : List Char → Option (PyVal × List Char)) :
    ℕ → List Char → List (String × PyVal) → Option (PyVal × List Char)
  | 0, _, _ => none
  | fuel + 1, cs, acc =>
    match cs with
    | '"' :: rest =>
      match parse_json_chars (rest.length + 1) rest with
      | none => none
      | some (key, cs1) =>
        match skip_ws cs1 with
        | ':' :: cs2 =>
          match pv (skip_ws cs2) with
          | none => none
          | some (v, cs3) =>
            let acc' := py_dict_set acc (String.mk key) v
            match skip_ws cs3 with
            | ',' :: cs4 => parse_json_members pv fuel (skip_ws cs4) acc'
            | '}' :: cs4 => some (.dict acc', cs4)
            | _ => none
        | _ => none
    | _ => none

/-- The elements of a JSON array after the opening bracket (non-empty case);
`pv` parses one value. -/
def parse_json_elements (pv : List Char → Option (PyVal × List Char)) :
    ℕ → List Char → List PyVal → Option (PyVal × List Char)
  | 0, _, _ => none
  | fuel + 1, cs, acc =>
    match pv cs with
    | none => none
    | some (v, cs1) =>
      match skip_ws cs1 with
      | ',' :: cs2 => parse_json_elements pv fuel (skip_ws cs2) (acc ++ [v])
      | ']' :: cs2 => some (.list (acc ++ [v]), cs2)
      | _ => none

/-- A JSON value at the head of the (whitespace-skipped) input. -/
def parse_json_value : ℕ → List Char → Option (PyVal × List Char)
  | 0, _ => none
  | fuel + 1, cs =>
    match cs with
    | [] => none
    | c :: rest =>
      if c = '{' then
        match skip_ws rest with
        | '}' :: r => some (.dict [], r)
        | cs' => parse_json_members (parse_json_value fuel) (cs'.length + 1) cs' []
      else if c = '[' then
        match skip_ws rest with
        | ']' :: r => some (.list [], r)
        | cs' => parse_json_elements (parse_json_value fuel) (cs'.length + 1) cs' []
      else if c = '"' then
        match parse_json_chars (rest.length + 1) rest with
        | some (chars, r) => some (.str (String.mk chars), r)
        | none => none
      else if c = 't' then
        if rest.take 3 = ['r', 'u', 'e'] then some (.bool true, rest.drop 3) else none
      else if c = 'f' then
        if rest.take 4 = ['a', 'l', 's', 'e'] then some (.bool false, rest.drop 4) else none
      else if c = 'n' then
        if rest.take 3 = ['u', 'l', 'l'] then some (.none_, rest.drop 3) else none
      else if c = '-' ∨ c.isDigit then
        match parse_json_number cs with
        | some (q, r) => some (.num q, r)
        | none => none
      else none

/-- Embedding of Python `json.loads`: parse one JSON value surrounded only
by whitespace, `none` on a `JSONDecodeError`. -/
def json_loads (s : String) : Option PyVal :=
  match parse_json_value (s.data.length + 1) (skip_ws s.data) with
  | some (v, rest) => if (skip_ws rest).isEmpty then some v else none
  | none => none

/-- `re.search(r'\{[^{}]*\}', output, re.DOTALL)` (stage 2): the leftmost
`{`, followed by a run of non-brace characters, closed by `}`. -/
def first_nonnested_block : List Char → Option (List Char)
  | [] => none
  | c :: rest =>
    if c = '{' then
      let run := rest.takeWhile (fun d => d ≠ '{' ∧ d ≠ '}')
      match rest.drop run.length with
      | '}' :: _ => some ('{' :: (run ++ ['}']))
      | _ => first_nonnested_block rest
    else first_nonnested_block rest

/-- `re.search(r'\{.*\}', output, re.DOTALL)` (stage 3): from the leftmost
`{` to the last `}` after it (greedy), `none` when no such pair exists. -/
def greedy_block : List Char → Option (List Char)
  | [] => none
  | c :: rest =>
    if c = '{' then
      let j := py_rfind rest '}'
      if 0 ≤ j then some ('{' :: rest.take (j.toNat + 1)) else none
    else greedy_block rest

/-- `re.sub(r',\s*X', 'X', text)` for a closing delimiter `X`: left-to-right,
non-overlapping; scanning resumes after each replacement. -/
def sub_comma_close (close : Char) : ℕ → List Char → List Char
  | 0, cs => cs
  | fuel + 1, cs =>
    match cs with
    | [] => []
    | a :: rest =>
      if a = ',' then
        match rest.drop (rest.takeWhile py_space).length with
        | c :: rest' =>
          if c = close then close :: sub_comma_close close fuel rest'
          else ',' :: sub_comma_close close fuel rest
        | [] => ',' :: sub_comma_close close fuel rest
      else a :: sub_comma_close close fuel rest

/-- The control characters removed by the cleanup stage
(`[\x00-\x08\x0b-\x0c\x0e-\x1f\x7f]`). -/
def is_ctrl_removed (c : Char) : Bool :=
  c.toNat ≤ 8 ∨ c.toNat = 0x0b ∨ c.toNat = 0x0c ∨
    (0x0e ≤ c.toNat ∧ c.toNat ≤ 0x1f) ∨ c.toNat = 0x7f

/-- Embedding of `DecisionMakingAgent._clean_invalid_tokens(text)`
(lines 237-268): drop trailing commas before `}` / `]`, turn single quotes
into double quotes, strip control characters. -/
def clean_invalid_tokens (s : String) : String :=
  let c1 := sub_comma_close '}' s.data.length s.data
  let c2 := sub_comma_close ']' c1.length c1
  let c3 := c2.map (fun c => if c = '\'' then '"' else c)
  String.mk (c3.filter (fun c => ¬ is_ctrl_removed c))

/-- Python `key in result` for a parsed value: key lookup on dicts,
membership on lists, substring on strings, `TypeError` otherwise. -/
def py_contains : PyVal → String → Except Unit Bool
  | .dict kvs, k => .ok (kvs.any (fun kv => kv.1 == k))
  | .list xs, k => .ok (xs.any (fun x => py_eq x (.str k)))
  | .str s, k => .ok (str_contains s k)
  | _, _ => .error ()

/-- Embedding of `DecisionMakingAgent._validate_output(result)`
(lines 270-273): `all(key in result for key in ["predictions",
"explanation"])`, short-circuiting left to right. -/
def validate_output (v : PyVal) : Except Unit Bool := do
  let b ← py_contains v "predictions"
  if b then py_contains v "explanation" else pure false

/-- One `json.loads` + `_validate_output` attempt of the cascade:
`.ok none` when the parse fails (`JSONDecodeError` caught) or validation
returns false; `.error` when validation raises. -/
def try_stage (s : String) : Except Unit (Option PyVal) :=
  match json_loads s with
  | none => .ok none
  | some v => do
    let b ← validate_output v
    pure (if b then some v else none)

/-- Embedding of `DecisionMakingAgent._parse_model_output(output)`
(lines 169-235): the 5-stage cascade; `.ok none` is the "all strategies
failed" sentinel (`return None`). -/
def parse_model_output (output : String) : Except Unit (Option PyVal) := do
  let r1 ← try_stage output
  if r1.isSome then pure r1
  else
    let r2 ← (match first_nonnested_block output.data with
      | some blk => try_stage (String.mk blk)
      | none => pure none)
    if r2.isSome then pure r2
    else
      let r3 ← (match greedy_block output.data with
        | some blk => try_stage (String.mk blk)
        | none => pure none)
      if r3.isSome then pure r3
      else
        if clean_invalid_tokens output ≠ output then
          let r4 ← try_stage (clean_invalid_tokens output)
          if r4.isSome then pure r4
          else
            let r5 ← (match greedy_block (clean_invalid_tokens output).data with
              | some blk => try_stage (String.mk blk)
              | none => pure none)
            if r5.isSome then pure r5 else pure none
        else pure none

/-! ### rank_and_explain (lines 39-91) -/

/-- Python truthiness (`if result:`) for parsed values. -/
def py_truthy : PyVal → Bool
  | .none_ => false
  | .bool b => b
  | .num q => q ≠ 0
  | .str s => s ≠ ""
  | .list xs => ¬ xs.isEmpty
  | .dict kvs => ¬ kvs.isEmpty

/-- Embedding of `DecisionMakingAgent._build_prompt` (lines 93-146); the
`dag` argument is received and ignored, as in the source. -/
def build_prompt (patient_summary : String) (candidates : List (String × ℚ)) (_dag : Dag)
    (summaries : List Summary) (clinician_comment : String) : String :=
  let candidates_str := String.intercalate ", "
    ((candidates.take 5).map fun c => c.1 ++ " (" ++ format2dp c.2 ++ ")")
  let evidence_str :=
    if summaries.isEmpty then ""
    else String.intercalate " "
      ((summaries.take 3).map fun s => s.disease_code ++ ": " ++ py_take s.summary 100)
  let p1 := "You are a medical AI assistant. \n\nCRITICAL: Respond with STRICT JSON ONLY. No extra text before or after JSON.\n\nPatient: " ++
    patient_summary ++ "\nCandidate diseases: " ++ candidates_str ++
    "\nMedical evidence: " ++ evidence_str
  let p2 := if clinician_comment ≠ "" then p1 ++ "\nClinician note: " ++ clinician_comment else p1
  p2 ++ "\n\nOutput ONLY this JSON structure (no other text):\n\x7b\n  \"predictions\": [\n    \x7b\"code\": \"DISEASE_CODE\", \"score\": 0.XX, \"rank\": 1\x7d\n  ],\n  \"explanation\": \"Brief clinical reasoning in 1-2 sentences\",\n  \"evidence\": [\n    \x7b\"disease_code\": \"CODE\", \"snippet\": \"relevant text\"\x7d\n  ]\n\x7d\n\nIMPORTANT:\n- Use double quotes for all strings\n- No trailing commas\n- Keep explanation under 200 characters\n- If uncertain, output valid JSON with empty arrays\n\nJSON:"

/-- The value returned by `rank_and_explain`: either the structured dict of
the early return / deterministic fallback, or the model-path dict
(`result["fallback"] = False` applied; `result["dag"] = dag` is carried as
the second component, a `Dag` not being a JSON value). -/
inductive RankReturn where
  | structured (r : RankResult)
  | modelJson (kvs : List (String × PyVal)) (dag : Dag)

/-- Embedding of `DecisionMakingAgent.rank_and_explain` (lines 39-91).
The generative capability (`_generate_from_model`) is an oracle argument
`gen`; `.error` stands for an exception during generation. Every exception
in the model path (generation, the validation `TypeError`, or the
`TypeError` of item assignment on a non-dict) is caught by the bare
`except Exception`, triggering the deterministic fallback. -/
def rank_and_explain (gen : String → Except Unit String) (patient_summary : String)
    (candidates : List (String × ℚ)) (dag : Dag) (summaries : List Summary)
    (clinician_comment : String := "") : RankReturn :=
  if candidates.isEmpty then
    .structured { predictions := [], explanation := "No candidate diseases identified.",
                  evidence := [], dag := dag, fallback := false }
  else
    let prompt := build_prompt patient_summary candidates dag summaries clinician_comment
    let attempt : Except Unit (Option PyVal) := do
      let out ← gen prompt
      parse_model_output out
    match attempt with
    | .ok (some v) =>
      if py_truthy v then
        match v with
        | .dict kvs => .modelJson (py_dict_set kvs "fallback" (.bool false)) dag
        | _ => .structured
            (deterministic_fallback patient_summary candidates dag summaries clinician_comment)
      else .structured
        (deterministic_fallback patient_summary candidates dag summaries clinician_comment)
    | _ => .structured
        (deterministic_fallback patient_summary candidates dag summaries clinician_comment)

/-! ## Projections and concrete fixtures used by the theorem statements -/

/-- The persistent data of an edge apart from the recomputed `fit_score`:
`(src, dst, weight, clinician_added, clinician_reversed, reason)`. -/
def edge_core (e : Edge) : String × String × ℚ × Bool × Bool × Option String :=
  (e.src, e.dst, e.weight, e.clinician_added, e.clinician_reversed, e.reason)

/-- The condition under which `iterative_refine` boosts edge `e` because of
summary `s`: the summary's disease code matches an endpoint
case-insensitively and the content contains a causal phrase. -/
def edge_matched (e : Edge) (s : Summary) : Bool :=
  ((py_lower s.disease_code) == (py_lower e.src) || (py_lower s.disease_code) == (py_lower e.dst)) &&
    (find_causal_phrase (py_lower s.content)).isSome

/-- The fields of a fallback prediction other than `dag_score`. -/
def pred_core (p : PredEntry) : String × ℚ × ℚ × ℚ × ℚ × ℕ :=
  (p.code, p.score, p.transition_score, p.doc_similarity, p.clinician_boost, p.rank)

/-- An empty co-occurrence store. -/
def codb_empty : CoDb := fun _ _ => none

/-- A co-occurrence store exercising all fit-score cases. -/
def codb_example : CoDb := fun a b =>
  if a = "A" ∧ b = "B" then some (5, 10)
  else if a = "A" ∧ b = "C" then some (3, 0)
  else if a = "A" ∧ b = "D" then some (0, 7)
  else none

/-- A one-edge graph `A → B` of weight `0.5`. -/
def dag_ab : Dag :=
  { nodes := [⟨"A"⟩, ⟨"B"⟩], edges := [{ src := "A", dst := "B", weight := 1 / 2 }] }

/-- An edge of weight `0.5`. -/
def edge_half : Edge := { src := "A", dst := "B", weight := 1 / 2 }

/-- An edge of weight `1.0`. -/
def edge_full : Edge := { src := "A", dst := "B", weight := 1 }

/-- A summary matching disease code `A` and containing a causal phrase. -/
def s_causes : Summary := { disease_code := "A", content := "X causes Y" }

/-- A 201-character content whose only sentence terminator sits at index 0. -/
def summary_cex_content : String := String.mk ('.' :: List.replicate 200 'a')

/-- The single-quote, trailing-comma model output of the parse-cascade test. -/
def cascade_input : String := "\x7b'predictions': [], 'explanation': 'ok',\x7d"

/-- A summary with similarity `0.8` for disease code `N18.9`. -/
def sim_summary : Summary := { disease_code := "N18.9", similarity := 4 / 5 }

/-! # Theorems -/

/-! ## Shared helper lemmas -/

theorem length_dropWhile_le (p : α → Bool) (l : List α) : (l.dropWhile p).length ≤ l.length := by
  induction l with
  | nil => simp
  | cons a l ih =>
    by_cases h : p a <;> simp [List.dropWhile, h] <;> omega

theorem py_rstrip_length_le (l : List Char) : (py_rstrip l).length ≤ l.length := by
  have h := length_dropWhile_le py_strip_space l.reverse
  simpa [py_rstrip] using h

theorem py_take_length (s : String) (n : ℕ) :
    (py_take s n).length = min n s.length := by
  rw [py_take, String.length_mk, List.length_take]
  rfl

theorem fit_edges_core (db : CoDb) (d : Dag) :
    ((fit_graph_with_data db d).edges).map edge_core = d.edges.map edge_core := by
  simp [fit_graph_with_data, edge_core]

/-! ## C8: empty candidate list -/

/-- **C8** (confirmed). When the candidate list is empty, `rank_and_explain`
returns the fixed structured result with empty predictions and evidence, the
fixed no-candidates explanation, and `fallback = false`, for every generation
oracle (so the generative model is never invoked) and without error. -/
theorem rank_and_explain_empty_candidates (gen : String → Except Unit String)
    (patient_summary : String) (dag : Dag) (summaries : List Summary)
    (clinician_comment : String) :
    rank_and_explain gen patient_summary [] dag summaries clinician_comment =
      .structured { predictions := [], explanation := "No candidate diseases identified.",
                    evidence := [], dag := dag, fallback := false } := rfl

/-! ## C3: fit scoring -/

/-- **C3** (confirmed). `fit_graph_with_data` stores `edge_fit_score` on every
edge and the sum of all edge fit scores in `global_fit`; an edge whose
co-occurrence record is `(5, 10)` scores `ln(0.5)`, a record with zero total
or zero count scores `-10.0` exactly, and a missing record scores `-5.0`
exactly. -/
theorem fit_graph_with_data_spec (db : CoDb) (dag : Dag) :
    (fit_graph_with_data db dag).edges =
      dag.edges.map (fun e => { e with fit_score := some (edge_fit_score db e.src e.dst) }) ∧
    (fit_graph_with_data db dag).global_fit =
      some ((dag.edges.map fun e => edge_fit_score db e.src e.dst).sum) ∧
    (∀ s d, db s d = some (5, 10) → edge_fit_score db s d = Real.log (1 / 2)) ∧
    (∀ s d co, db s d = some (co, 0) → edge_fit_score db s d = -10) ∧
    (∀ s d t, db s d = some (0, t) → edge_fit_score db s d = -10) ∧
    (∀ s d, db s d = none → edge_fit_score db s d = -5) := by
  refine ⟨rfl, rfl, ?_, ?_, ?_, ?_⟩
  · intro s d h
    have step : edge_fit_score db s d = Real.log (((5 : ℕ) : ℝ) / ((10 : ℕ) : ℝ)) := by
      simp only [edge_fit_score, h]
      rw [if_pos (by norm_num : (0 : ℕ) < 10),
        if_pos (by norm_num : (0 : ℝ) < ((5 : ℕ) : ℝ) / ((10 : ℕ) : ℝ))]
    rw [step]
    congr 1
    norm_num
  · intro s d co h
    simp only [edge_fit_score, h]
    rw [if_neg (by norm_num : ¬ (0 : ℕ) < 0)]
  · intro s d t h
    rcases Nat.eq_zero_or_pos t with ht | ht
    · subst ht
      simp only [edge_fit_score, h]
      rw [if_neg (by norm_num : ¬ (0 : ℕ) < 0)]
    · simp only [edge_fit_score, h]
      rw [if_pos ht, if_neg (by simp : ¬ (0 : ℝ) < ((0 : ℕ) : ℝ) / ((t : ℕ) : ℝ))]
  · intro s d h
    simp only [edge_fit_score, h]

/-- Witness for C3 at the concrete store `codb_example`. -/
theorem fit_graph_with_data_spec_witness :
    (codb_example "A" "B" = some (5, 10) ∧ edge_fit_score codb_example "A" "B" = Real.log (1 / 2)) ∧
    (codb_example "A" "C" = some (3, 0) ∧ edge_fit_score codb_example "A" "C" = -10) ∧
    (codb_example "A" "D" = some (0, 7) ∧ edge_fit_score codb_example "A" "D" = -10) ∧
    (codb_example "B" "A" = none ∧ edge_fit_score codb_example "B" "A" = -5) :=
  ⟨⟨rfl, (fit_graph_with_data_spec codb_example {}).2.2.1 "A" "B" rfl⟩,
   ⟨rfl, (fit_graph_with_data_spec codb_example {}).2.2.2.1 "A" "C" 3 rfl⟩,
   ⟨rfl, (fit_graph_with_data_spec codb_example {}).2.2.2.2.1 "A" "D" 7 rfl⟩,
   ⟨rfl, (fit_graph_with_data_spec codb_example {}).2.2.2.2.2 "B" "A" rfl⟩⟩

/-! ## C9: cosine similarity -/

/-- **C9** (confirmed). `cosine_similarity` always lies in `[0, 1]`, returns
exactly `0` when either vector has zero norm (the division is guarded), and
otherwise equals `dot/(‖a‖·‖b‖)` clamped to `[0, 1]`. -/
theorem cosine_similarity_spec (a b : List ℝ) :
    0 ≤ cosine_similarity a b ∧ cosine_similarity a b ≤ 1 ∧
    (np_norm a = 0 ∨ np_norm b = 0 → cosine_similarity a b = 0) ∧
    (np_norm a ≠ 0 → np_norm b ≠ 0 →
      cosine_similarity a b = max 0 (min 1 (np_dot a b / (np_norm a * np_norm b)))) := by
  by_cases h : np_norm a = 0 ∨ np_norm b = 0
  · refine ⟨?_, ?_, fun _ => ?_, fun ha hb => ?_⟩ <;> simp [cosine_similarity, h]
    · rcases h with h | h
      · exact absurd h ha
      · exact absurd h hb
  · refine ⟨?_, ?_, fun hc => absurd hc h, fun _ _ => ?_⟩
    · simp [cosine_similarity, h]
    · simp only [cosine_similarity, if_neg h]
      exact max_le (by norm_num) (le_trans (min_le_left _ _) le_rfl)
    · simp [cosine_similarity, h]

/-- Witness for C9 at a zero-norm vector and at unit vectors. -/
theorem cosine_similarity_spec_witness :
    np_norm [(0 : ℝ)] = 0 ∧ cosine_similarity [(0 : ℝ)] [1] = 0 :=
  ⟨by simp [np_norm], (cosine_similarity_spec [(0 : ℝ)] [1]).2.2.1 (Or.inl (by simp [np_norm]))⟩

/-! ## C2: extractive summary (corrected) -/

/-- **C2 counterexample.** On a 201-character content whose only sentence
terminator sits at index 0 of the 200-character window, the summary is 203
characters long — longer than `max_chars` — and the terminator found in the
window is not used as the truncation point, contradicting the claim. -/
theorem generate_summary_cex :
    summary_cex_content.length = 201 ∧
    py_rfind (py_take summary_cex_content 200).data '.' = 0 ∧
    (generate_summary summary_cex_content 200).length = 203 := by
  refine ⟨by decide, by decide, by decide⟩

/-- **C2** (corrected amendment). Content of length ≤ `max_chars` is returned
verbatim; otherwise, when the last sentence terminator of the window sits at
a *positive* index, the window is truncated right after it and the result
fits in `max_chars`; when no terminator occurs at a positive index (even if
one sits at index 0), the result is the right-stripped window plus `"..."`.
The summary length is therefore bounded by `max_chars + 3`, not `max_chars`. -/
theorem generate_summary_amended (content : String) (max_chars : ℕ) :
    (content.length ≤ max_chars → generate_summary content max_chars = content) ∧
    (generate_summary content max_chars).length ≤ max_chars + 3 ∧
    (max_chars < content.length → 0 < last_terminator content max_chars →
      generate_summary content max_chars =
        py_take (py_take content max_chars) (last_terminator content max_chars + 1).toNat ∧
      (generate_summary content max_chars).length ≤ max_chars) ∧
    (max_chars < content.length → ¬ 0 < last_terminator content max_chars →
      generate_summary content max_chars =
        String.mk (py_rstrip (py_take content max_chars).data) ++ "...") := by
  have hwin : (py_take content max_chars).length ≤ max_chars := by
    rw [py_take_length]; omega
  by_cases h : content.length ≤ max_chars
  · refine ⟨fun _ => ?_, ?_, fun hlt => absurd h (not_le.2 hlt), fun hlt => absurd h (not_le.2 hlt)⟩
    · simp [generate_summary, h]
    · simp only [generate_summary, if_pos h]; omega
  · have h' : max_chars < content.length := not_le.1 h
    by_cases hl : 0 < last_terminator content max_chars
    · have heq : generate_summary content max_chars =
          py_take (py_take content max_chars) (last_terminator content max_chars + 1).toNat := by
        simp [generate_summary, h, hl]
      have hlen : (generate_summary content max_chars).length ≤ max_chars := by
        rw [heq, py_take_length]
        exact le_trans (min_le_right _ _) hwin
      exact ⟨fun hc => absurd hc h, le_trans hlen (by omega),
        fun _ _ => ⟨heq, hlen⟩, fun _ hc => absurd hl hc⟩
    · have heq : generate_summary content max_chars =
          String.mk (py_rstrip (py_take content max_chars).data) ++ "..." := by
        simp [generate_summary, h, hl]
      refine ⟨fun hc => absurd hc h, ?_, fun _ hc => absurd hc hl, fun _ _ => heq⟩
      rw [heq, String.length_append]
      have h1 : (String.mk (py_rstrip (py_take content max_chars).data)).length ≤ max_chars := by
        rw [String.length_mk]
        refine le_trans (py_rstrip_length_le _) ?_
        show (content.data.take max_chars).length ≤ max_chars
        rw [List.length_take]
        omega
      have h2 : ("..." : String).length = 3 := rfl
      omega

/-- Witness for C2 on a short content and on a long content with a positive
terminator index. -/
theorem generate_summary_amended_witness :
    generate_summary "abc" 200 = "abc" ∧
    generate_summary "Hello world. More text here to exceed." 20 = "Hello world." :=
  ⟨(generate_summary_amended "abc" 200).1 (by decide),
   ((generate_summary_amended "Hello world. More text here to exceed." 20).2.2.1
      (by decide) (by decide)).1.trans (by decide)⟩

/-! ## C1: clinician edits (corrected) -/

/-- **C1 counterexample.** On a graph already containing the edge `(A, B)`,
`add_edge (A, B)` followed by `remove_edge (A, B)` leaves no `(A, B)` edge at
all: `remove_edge` drops *every* matching edge (a filtering list
comprehension), not only the first, so the original edge set is lost. -/
theorem apply_clinician_edit_cex :
    dag_ab.edges.map edge_core = [("A", "B", 1 / 2, false, false, none)] ∧
    (apply_clinician_edit codb_empty
        (apply_clinician_edit codb_empty dag_ab "add_edge" "A" "B" "because")
        "remove_edge" "A" "B" "undo").edges.map edge_core = [] :=
  ⟨rfl, rfl⟩

/-- **C1** (corrected amendment). Provided the original graph has no edge
exactly matching `(from, to)`, `add_edge` followed by `remove_edge` with the
identical pair restores the original edge set (up to the recomputed fit
scores); and `remove_edge` drops *every* edge exactly matching `(from, to)`,
not only the first. -/
theorem apply_clinician_edit_amended (db : CoDb) (g : Dag) (f t r₁ r₂ : String)
    (h : ∀ e ∈ g.edges, ¬(e.src = f ∧ e.dst = t)) :
    ((apply_clinician_edit db (apply_clinician_edit db g "add_edge" f t r₁)
        "remove_edge" f t r₂).edges.map edge_core = g.edges.map edge_core) ∧
    (∀ g' : Dag, (apply_clinician_edit db g' "remove_edge" f t r₂).edges.map edge_core =
      (g'.edges.filter fun e => ¬(e.src = f ∧ e.dst = t)).map edge_core) := by
  have hrem : ∀ g' : Dag,
      (apply_clinician_edit db g' "remove_edge" f t r₂).edges.map edge_core =
        (g'.edges.filter fun e => ¬(e.src = f ∧ e.dst = t)).map edge_core := by
    intro g'
    exact fit_edges_core db _
  refine ⟨?_, hrem⟩
  rw [hrem]
  have hedges : (apply_clinician_edit db g "add_edge" f t r₁).edges
      = (g.edges ++ ([{ src := f, dst := t, weight := 4 / 5, clinician_added := true,
                        reason := some r₁ }] : List Edge)).map
        (fun e : Edge => { e with fit_score := some (edge_fit_score db e.src e.dst) }) := rfl
  rw [hedges, List.filter_map, List.map_map]
  have hcomp1 : ((fun e : Edge => decide ¬(e.src = f ∧ e.dst = t)) ∘
      (fun e : Edge => { e with fit_score := some (edge_fit_score db e.src e.dst) })) =
      fun e : Edge => decide ¬(e.src = f ∧ e.dst = t) := funext fun e => rfl
  have hcomp2 : (edge_core ∘
      (fun e : Edge => { e with fit_score := some (edge_fit_score db e.src e.dst) })) =
      edge_core := funext fun e => rfl
  rw [hcomp1, hcomp2, List.filter_append]
  have hself : g.edges.filter (fun e : Edge => decide ¬(e.src = f ∧ e.dst = t)) = g.edges :=
    List.filter_eq_self.2 fun e he => by
      simp only [decide_eq_true_eq]
      exact h e he
  have hnew : ([{ src := f, dst := t, weight := 4 / 5, clinician_added := true,
                  reason := some r₁ }] : List Edge).filter
      (fun e : Edge => decide ¬(e.src = f ∧ e.dst = t)) = [] := by
    simp
  rw [hself, hnew, List.append_nil]

/-- Witness for C1 on the empty graph. -/
theorem apply_clinician_edit_amended_witness :
    (apply_clinician_edit codb_empty (apply_clinician_edit codb_empty {} "add_edge" "A" "B" "x")
        "remove_edge" "A" "B" "y").edges.map edge_core = (({} : Dag)).edges.map edge_core :=
  (apply_clinician_edit_amended codb_empty {} "A" "B" "x" "y" (by simp)).1

/-! ## Refinement-machinery lemmas shared by C5 and C10 -/

theorem boost_src_dst (i : ℕ) (e : Edge) (s : Summary) :
    (boost_with_summary i e s).1.src = e.src ∧ (boost_with_summary i e s).1.dst = e.dst := by
  unfold boost_with_summary
  by_cases hc : (py_lower s.disease_code) = (py_lower e.src) ∨ (py_lower s.disease_code) = (py_lower e.dst)
  · rw [if_pos hc]
    cases find_causal_phrase (py_lower s.content) <;> exact ⟨rfl, rfl⟩
  · rw [if_neg hc]
    exact ⟨rfl, rfl⟩

theorem boost_weight (i : ℕ) (e : Edge) (s : Summary) (h0 : 0 ≤ e.weight) (h1 : e.weight ≤ 1) :
    e.weight ≤ (boost_with_summary i e s).1.weight ∧ (boost_with_summary i e s).1.weight ≤ 1 := by
  unfold boost_with_summary
  by_cases hc : (py_lower s.disease_code) = (py_lower e.src) ∨ (py_lower s.disease_code) = (py_lower e.dst)
  · rw [if_pos hc]
    cases find_causal_phrase (py_lower s.content) with
    | none => exact ⟨le_refl _, h1⟩
    | some phrase =>
      refine ⟨le_min h1 (by nlinarith), min_le_left _ _⟩
  · rw [if_neg hc]
    exact ⟨le_refl _, h1⟩

theorem boost_none_eq (i : ℕ) (e : Edge) (s : Summary)
    (h : (boost_with_summary i e s).2 = none) : (boost_with_summary i e s).1 = e := by
  by_cases hc : (py_lower s.disease_code) = (py_lower e.src) ∨ (py_lower s.disease_code) = (py_lower e.dst)
  · cases hfp : find_causal_phrase (py_lower s.content) with
    | none =>
      unfold boost_with_summary
      rw [if_pos hc, hfp]
    | some phrase =>
      exfalso
      unfold boost_with_summary at h
      rw [if_pos hc, hfp] at h
      simp at h
  · unfold boost_with_summary
    rw [if_neg hc]

theorem boost_matched_some (i : ℕ) (e : Edge) (s : Summary) (h : edge_matched e s = true) :
    ∃ m, (boost_with_summary i e s).2 = some m ∧ m.iteration = i ∧
      m.old_weight = e.weight ∧ m.new_weight = min 1 (e.weight * (6 / 5)) := by
  have h' := h
  simp only [edge_matched, Bool.and_eq_true, Bool.or_eq_true, beq_iff_eq] at h'
  obtain ⟨hor, hp⟩ := h'
  have hc : (py_lower s.disease_code) = (py_lower e.src) ∨ (py_lower s.disease_code) = (py_lower e.dst) := hor
  obtain ⟨phrase, hphrase⟩ := Option.isSome_iff_exists.1 hp
  have heq : (boost_with_summary i e s).2 = some
      { iteration := i, edge := e.src ++ " -> " ++ e.dst,
        reason := "Found causal phrase '" ++ phrase ++ "' in " ++
          (py_lower s.disease_code) ++ " document",
        old_weight := e.weight, new_weight := min 1 (e.weight * (6 / 5)) } := by
    unfold boost_with_summary
    rw [if_pos hc, hphrase]
  exact ⟨_, heq, rfl, rfl, rfl⟩

theorem boost_not_matched (i : ℕ) (e : Edge) (s : Summary) (h : edge_matched e s = false) :
    boost_with_summary i e s = (e, none) := by
  unfold boost_with_summary
  by_cases hc : (py_lower s.disease_code) = (py_lower e.src) ∨ (py_lower s.disease_code) = (py_lower e.dst)
  · rw [if_pos hc]
    cases hfp : find_causal_phrase (py_lower s.content) with
    | none => rfl
    | some phrase =>
      exfalso
      have hm : edge_matched e s = true := by
        unfold edge_matched
        rw [hfp]
        rcases hc with h' | h' <;> simp [h']
      simp [h] at hm
  · rw [if_neg hc]

theorem edge_matched_congr (e e' : Edge) (s : Summary)
    (hs : e.src = e'.src) (hd : e.dst = e'.dst) : edge_matched e s = edge_matched e' s := by
  unfold edge_matched
  rw [hs, hd]

theorem refine_edge_src_dst (i : ℕ) (ss : List Summary) :
    ∀ e : Edge, (refine_edge i ss e).1.src = e.src ∧ (refine_edge i ss e).1.dst = e.dst := by
  induction ss with
  | nil => intro e; exact ⟨rfl, rfl⟩
  | cons s ss ih =>
    intro e
    have hb := boost_src_dst i e s
    have hi := ih (boost_with_summary i e s).1
    exact ⟨hi.1.trans hb.1, hi.2.trans hb.2⟩

theorem refine_edge_weight (i : ℕ) (ss : List Summary) :
    ∀ e : Edge, 0 ≤ e.weight → e.weight ≤ 1 →
      e.weight ≤ (refine_edge i ss e).1.weight ∧ (refine_edge i ss e).1.weight ≤ 1 := by
  induction ss with
  | nil => intro e _ h1; exact ⟨le_refl _, h1⟩
  | cons s ss ih =>
    intro e h0 h1
    have hb := boost_weight i e s h0 h1
    have hi := ih (boost_with_summary i e s).1 (le_trans h0 hb.1) hb.2
    exact ⟨le_trans hb.1 hi.1, hi.2⟩

theorem refine_edge_mods_nil (i : ℕ) (ss : List Summary) :
    ∀ e : Edge, (refine_edge i ss e).2 = [] → (refine_edge i ss e).1 = e := by
  induction ss with
  | nil => intro e _; rfl
  | cons s ss ih =>
    intro e h
    have h2 : (boost_with_summary i e s).2.toList ++ (refine_edge i ss (boost_with_summary i e s).1).2 = [] := h
    have hb2 : (boost_with_summary i e s).2 = none := by
      cases hb : (boost_with_summary i e s).2 with
      | none => rfl
      | some m => rw [hb] at h2; simp at h2
    have hrest : (refine_edge i ss (boost_with_summary i e s).1).2 = [] := by
      rw [hb2] at h2; simpa using h2
    have he : (boost_with_summary i e s).1 = e := boost_none_eq i e s hb2
    show (refine_edge i ss (boost_with_summary i e s).1).1 = e
    rw [ih _ hrest, he]

theorem refine_edge_no_match (i : ℕ) (ss : List Summary) :
    ∀ e : Edge, (∀ s ∈ ss, edge_matched e s = false) →
      refine_edge i ss e = (e, []) := by
  induction ss with
  | nil => intro e _; rfl
  | cons s ss ih =>
    intro e h
    have hb := boost_not_matched i e s (h s (List.mem_cons_self s ss))
    have h1 : (boost_with_summary i e s).1 = e := by rw [hb]
    have h2 : (boost_with_summary i e s).2 = none := by rw [hb]
    show ((refine_edge i ss (boost_with_summary i e s).1).1,
      (boost_with_summary i e s).2.toList ++ (refine_edge i ss (boost_with_summary i e s).1).2) = (e, [])
    rw [h1, h2, ih e (fun s' hs' => h s' (List.mem_cons_of_mem s hs'))]
    rfl

theorem refine_edge_mod_exists (i : ℕ) (ss : List Summary) :
    ∀ e : Edge, (∃ s ∈ ss, edge_matched e s = true) →
      ∃ m ∈ (refine_edge i ss e).2, m.iteration = i := by
  induction ss with
  | nil => intro e h; simp at h
  | cons s ss ih =>
    intro e h
    show ∃ m ∈ (boost_with_summary i e s).2.toList ++ (refine_edge i ss (boost_with_summary i e s).1).2,
      m.iteration = i
    by_cases hm : edge_matched e s = true
    · obtain ⟨m, hm2, hmi, _, _⟩ := boost_matched_some i e s hm
      exact ⟨m, List.mem_append_left _ (by simp [hm2]), hmi⟩
    · obtain ⟨s', hs', hms'⟩ := h
      rcases List.mem_cons.1 hs' with rfl | hs'
      · exact absurd hms' hm
      · have hb := boost_src_dst i e s
        have hms'' : edge_matched (boost_with_summary i e s).1 s' = true := by
          rw [← edge_matched_congr e _ s' hb.1.symm hb.2.symm]
          exact hms'
        obtain ⟨m, hmem, hmi⟩ := ih (boost_with_summary i e s).1 ⟨s', hs', hms''⟩
        exact ⟨m, List.mem_append_right _ hmem, hmi⟩

theorem refine_pass_fst (i : ℕ) (ss : List Summary) (edges : List Edge) :
    (refine_pass i ss edges).1 = edges.map (fun e => (refine_edge i ss e).1) := by
  simp only [refine_pass]
  rw [List.map_map]
  rfl

theorem refine_pass_forall₂ (i : ℕ) (ss : List Summary) (edges : List Edge)
    (h : ∀ e ∈ edges, 0 ≤ e.weight ∧ e.weight ≤ 1) :
    List.Forall₂ (fun e e' : Edge => e.src = e'.src ∧ e.dst = e'.dst ∧
      e.weight ≤ e'.weight ∧ e'.weight ≤ 1) edges (refine_pass i ss edges).1 := by
  rw [refine_pass_fst, List.forall₂_map_right_iff, List.forall₂_same]
  intro e he
  have hw := refine_edge_weight i ss e (h e he).1 (h e he).2
  have hs := refine_edge_src_dst i ss e
  exact ⟨hs.1.symm, hs.2.symm, hw.1, hw.2⟩

theorem refine_pass_src_dst (i : ℕ) (ss : List Summary) (edges : List Edge) :
    List.Forall₂ (fun e e' : Edge => e.src = e'.src ∧ e.dst = e'.dst)
      edges (refine_pass i ss edges).1 := by
  rw [refine_pass_fst, List.forall₂_map_right_iff, List.forall₂_same]
  intro e _
  have hs := refine_edge_src_dst i ss e
  exact ⟨hs.1.symm, hs.2.symm⟩

theorem refine_pass_mods_nil (i : ℕ) (ss : List Summary) (edges : List Edge)
    (h : (refine_pass i ss edges).2 = []) : (refine_pass i ss edges).1 = edges := by
  rw [refine_pass_fst]
  have h2 : ∀ e ∈ edges, (refine_edge i ss e).2 = [] := by
    intro e he
    have hnil := List.flatten_eq_nil_iff.1 (show (List.map Prod.snd
      (List.map (refine_edge i ss) edges)).flatten = [] from h) ((refine_edge i ss e).2)
    apply hnil
    rw [List.map_map]
    exact List.mem_map.2 ⟨e, he, rfl⟩
  have : ∀ e ∈ edges, (refine_edge i ss e).1 = e := fun e he =>
    refine_edge_mods_nil i ss e (h2 e he)
  calc edges.map (fun e => (refine_edge i ss e).1) = edges.map id := List.map_congr_left this
    _ = edges := List.map_id edges

theorem refine_pass_no_match (i : ℕ) (ss : List Summary) (edges : List Edge)
    (h : ∀ e ∈ edges, ∀ s ∈ ss, edge_matched e s = false) :
    refine_pass i ss edges = (edges, []) := by
  simp only [refine_pass]
  have hmap : edges.map (refine_edge i ss) = edges.map (fun e => (e, ([] : List ModRec))) :=
    List.map_congr_left (fun e he => refine_edge_no_match i ss e (h e he))
  rw [hmap, List.map_map, List.map_map]
  have h1 : (Prod.fst ∘ fun e : Edge => (e, ([] : List ModRec))) = id := rfl
  have h2 : (Prod.snd ∘ fun e : Edge => (e, ([] : List ModRec))) =
      fun _ : Edge => ([] : List ModRec) := rfl
  rw [h1, h2, List.map_id]
  have he : (List.map (fun _ : Edge => ([] : List ModRec)) edges).flatten = [] := by simp
  rw [he]

theorem refine_pass_mod_exists (i : ℕ) (ss : List Summary) (edges : List Edge)
    (h : ∃ e ∈ edges, ∃ s ∈ ss, edge_matched e s = true) :
    ∃ m ∈ (refine_pass i ss edges).2, m.iteration = i := by
  obtain ⟨e, he, hs⟩ := h
  obtain ⟨m, hm, hmi⟩ := refine_edge_mod_exists i ss e hs
  refine ⟨m, ?_, hmi⟩
  show m ∈ (List.map Prod.snd (List.map (refine_edge i ss) edges)).flatten
  rw [List.map_map]
  exact List.mem_flatten.2 ⟨(refine_edge i ss e).2, List.mem_map.2 ⟨e, he, rfl⟩, hm⟩

theorem fit_forall₂_src_dst_weight (db : CoDb) (d : Dag) :
    List.Forall₂ (fun e e' : Edge => e.src = e'.src ∧ e.dst = e'.dst ∧ e.weight = e'.weight)
      d.edges (fit_graph_with_data db d).edges := by
  show List.Forall₂ _ d.edges (d.edges.map _)
  rw [List.forall₂_map_right_iff, List.forall₂_same]
  intro e _
  exact ⟨rfl, rfl, rfl⟩

theorem matched_transfer (l l' : List Edge) (s : Summary)
    (hf : List.Forall₂ (fun e e' : Edge => e.src = e'.src ∧ e.dst = e'.dst) l l')
    (h : ∃ e ∈ l, edge_matched e s = true) : ∃ e' ∈ l', edge_matched e' s = true := by
  induction hf with
  | nil => simpa using h
  | cons hr hrest ih =>
    rcases h with ⟨e, he, hm⟩
    rcases List.mem_cons.1 he with rfl | he'
    · exact ⟨_, List.mem_cons_self _ _, (edge_matched_congr _ _ s hr.1.symm hr.2.symm).symm ▸ hm⟩
    · obtain ⟨e', he', hm'⟩ := ih ⟨e, he', hm⟩
      exact ⟨e', List.mem_cons_of_mem _ he', hm'⟩

theorem forall₂_trans_of {α : Type _} {R S T : α → α → Prop}
    (comp : ∀ a b c, R a b → S b c → T a c) :
    ∀ {a b c : List α}, List.Forall₂ R a b → List.Forall₂ S b c → List.Forall₂ T a c := by
  intro a b c h1 h2
  rw [List.forall₂_iff_get] at h1 h2 ⊢
  refine ⟨h1.1.trans h2.1, fun i hi1 hi3 => ?_⟩
  have hib : i < b.length := h1.1 ▸ hi1
  exact comp _ _ _ (h1.2 i hi1 hib) (h2.2 i hib hi3)

theorem bounds_of_forall₂ (a b : List Edge)
    (h : List.Forall₂ (fun e e' : Edge => e.src = e'.src ∧ e.dst = e'.dst ∧
      e.weight ≤ e'.weight ∧ e'.weight ≤ 1) a b)
    (hb : ∀ e ∈ a, 0 ≤ e.weight ∧ e.weight ≤ 1) :
    ∀ e' ∈ b, 0 ≤ e'.weight ∧ e'.weight ≤ 1 := by
  induction h with
  | nil => intro e' he'; simp at he'
  | @cons ea eb la lb hr hrest ih =>
    intro e' he'
    rcases List.mem_cons.1 he' with rfl | he'
    · exact ⟨le_trans (hb ea (List.mem_cons_self _ _)).1 hr.2.2.1, hr.2.2.2⟩
    · exact ih (fun e he => hb e (List.mem_cons_of_mem _ he)) e' he'

theorem fit_preserves_bounds (db : CoDb) (d : Dag)
    (h : ∀ e ∈ d.edges, 0 ≤ e.weight ∧ e.weight ≤ 1) :
    ∀ e' ∈ (fit_graph_with_data db d).edges, 0 ≤ e'.weight ∧ e'.weight ≤ 1 := by
  intro e' he'
  obtain ⟨e, he, rfl⟩ := List.mem_map.1 he'
  exact h e he

theorem refine_loop_succ (db : CoDb) (ss : List Summary) (fuel i : ℕ) (dag : Dag)
    (hist : List ModRec) :
    refine_loop db ss (fuel + 1) i dag hist =
      if (refine_pass i ss dag.edges).2.isEmpty then
        ({ dag with edges := (refine_pass i ss dag.edges).1 }, hist)
      else refine_loop db ss fuel (i + 1)
        (fit_graph_with_data db { dag with edges := (refine_pass i ss dag.edges).1 })
        (hist ++ (refine_pass i ss dag.edges).2) := rfl

theorem refine_loop_halt (db : CoDb) (ss : List Summary) (fuel i : ℕ) (dag : Dag)
    (hist : List ModRec) (h : (refine_pass i ss dag.edges).2 = []) :
    refine_loop db ss (fuel + 1) i dag hist = (dag, hist) := by
  rw [refine_loop_succ, if_pos (by rw [h]; rfl), refine_pass_mods_nil i ss dag.edges h]

theorem refine_loop_forall₂ (db : CoDb) (ss : List Summary) :
    ∀ (fuel i : ℕ) (dag : Dag) (hist : List ModRec),
      (∀ e ∈ dag.edges, 0 ≤ e.weight ∧ e.weight ≤ 1) →
      List.Forall₂ (fun e e' : Edge => e.src = e'.src ∧ e.dst = e'.dst ∧
        e.weight ≤ e'.weight ∧ e'.weight ≤ 1)
        dag.edges (refine_loop db ss fuel i dag hist).1.edges := by
  intro fuel
  induction fuel with
  | zero =>
    intro i dag hist hb
    exact List.forall₂_same.2 fun e he => ⟨rfl, rfl, le_refl _, (hb e he).2⟩
  | succ fuel ih =>
    intro i dag hist hb
    rw [refine_loop_succ]
    have hpass := refine_pass_forall₂ i ss dag.edges hb
    by_cases hm : (refine_pass i ss dag.edges).2.isEmpty = true
    · rw [if_pos hm]
      exact hpass
    · rw [if_neg hm]
      have hb' : ∀ e ∈ (refine_pass i ss dag.edges).1, 0 ≤ e.weight ∧ e.weight ≤ 1 :=
        bounds_of_forall₂ _ _ hpass hb
      have hfit : List.Forall₂ (fun e e' : Edge => e.src = e'.src ∧ e.dst = e'.dst ∧
          e.weight ≤ e'.weight ∧ e'.weight ≤ 1)
          (refine_pass i ss dag.edges).1
          (fit_graph_with_data db { dag with edges := (refine_pass i ss dag.edges).1 }).edges := by
        show List.Forall₂ _ _ (((refine_pass i ss dag.edges).1).map _)
        rw [List.forall₂_map_right_iff, List.forall₂_same]
        intro e he
        exact ⟨rfl, rfl, le_refl _, (hb' e he).2⟩
      have hcomp : ∀ a b c : Edge,
          (a.src = b.src ∧ a.dst = b.dst ∧ a.weight ≤ b.weight ∧ b.weight ≤ 1) →
          (b.src = c.src ∧ b.dst = c.dst ∧ b.weight ≤ c.weight ∧ c.weight ≤ 1) →
          (a.src = c.src ∧ a.dst = c.dst ∧ a.weight ≤ c.weight ∧ c.weight ≤ 1) :=
        fun a b c r s => ⟨r.1.trans s.1, r.2.1.trans s.2.1, le_trans r.2.2.1 s.2.2.1, s.2.2.2⟩
      have hbfit : ∀ e ∈ (fit_graph_with_data db
          { dag with edges := (refine_pass i ss dag.edges).1 }).edges,
          0 ≤ e.weight ∧ e.weight ≤ 1 :=
        fit_preserves_bounds db _ hb'
      exact forall₂_trans_of hcomp (forall₂_trans_of hcomp hpass hfit)
        (ih (i + 1) _ _ hbfit)

theorem refine_loop_hist_extends (db : CoDb) (ss : List Summary) :
    ∀ (fuel i : ℕ) (dag : Dag) (hist : List ModRec),
      ∃ tail, (refine_loop db ss fuel i dag hist).2 = hist ++ tail := by
  intro fuel
  induction fuel with
  | zero => intro i dag hist; exact ⟨[], (List.append_nil hist).symm⟩
  | succ fuel ih =>
    intro i dag hist
    rw [refine_loop_succ]
    by_cases hm : (refine_pass i ss dag.edges).2.isEmpty = true
    · rw [if_pos hm]; exact ⟨[], (List.append_nil hist).symm⟩
    · rw [if_neg hm]
      obtain ⟨tail, htail⟩ := ih (i + 1)
        (fit_graph_with_data db { dag with edges := (refine_pass i ss dag.edges).1 })
        (hist ++ (refine_pass i ss dag.edges).2)
      exact ⟨(refine_pass i ss dag.edges).2 ++ tail, by rw [htail, List.append_assoc]⟩

theorem refine_loop_iters (db : CoDb) (ss : List Summary) :
    ∀ (fuel i : ℕ) (dag : Dag) (hist : List ModRec),
      (∃ e ∈ dag.edges, ∃ s ∈ ss, edge_matched e s = true) →
      ∀ k, i ≤ k → k < i + fuel →
        ∃ m ∈ (refine_loop db ss fuel i dag hist).2, m.iteration = k := by
  intro fuel
  induction fuel with
  | zero => intro i dag hist _ k h1 h2; omega
  | succ fuel ih =>
    intro i dag hist h k h1 h2
    have hex := refine_pass_mod_exists i ss dag.edges h
    have hne : ¬ (refine_pass i ss dag.edges).2.isEmpty = true := by
      obtain ⟨m, hm, _⟩ := hex
      cases hl : (refine_pass i ss dag.edges).2 with
      | nil => rw [hl] at hm; simp at hm
      | cons a l => simp [hl]
    rw [refine_loop_succ, if_neg hne]
    have hsd : List.Forall₂ (fun e e' : Edge => e.src = e'.src ∧ e.dst = e'.dst) dag.edges
        (fit_graph_with_data db { dag with edges := (refine_pass i ss dag.edges).1 }).edges := by
      refine forall₂_trans_of (T := fun e e' : Edge => e.src = e'.src ∧ e.dst = e'.dst)
        (fun a b c (r : a.src = b.src ∧ a.dst = b.dst) (s : b.src = c.src ∧ b.dst = c.dst) =>
          ⟨r.1.trans s.1, r.2.trans s.2⟩)
        (refine_pass_src_dst i ss dag.edges) ?_
      exact (fit_forall₂_src_dst_weight db
        { dag with edges := (refine_pass i ss dag.edges).1 }).imp fun a b r => ⟨r.1, r.2.1⟩
    have hmatch' : ∃ e' ∈ (fit_graph_with_data db
        { dag with edges := (refine_pass i ss dag.edges).1 }).edges,
        ∃ s ∈ ss, edge_matched e' s = true := by
      obtain ⟨e, he, s, hs, hm⟩ := h
      obtain ⟨e', he', hm'⟩ := matched_transfer _ _ s hsd ⟨e, he, hm⟩
      exact ⟨e', he', s, hs, hm'⟩
    rcases Nat.eq_or_lt_of_le h1 with heq | hlt
    · -- k = i: the pass of this iteration contributed a record
      subst heq
      obtain ⟨m, hm, hmi⟩ := hex
      obtain ⟨tail, htail⟩ := refine_loop_hist_extends db ss fuel (i + 1)
        (fit_graph_with_data db { dag with edges := (refine_pass i ss dag.edges).1 })
        (hist ++ (refine_pass i ss dag.edges).2)
      refine ⟨m, ?_, hmi⟩
      rw [htail]
      exact List.mem_append_left _ (List.mem_append_right _ hm)
    · exact ih (i + 1) _ _ hmatch' k hlt (by omega)

/-! ## C5: iterative refinement invariants -/

/-- **C5** (confirmed). For edge weights in `[0, 1]` (the data-model range):
(1) across a full `iterative_refine` run every edge keeps its endpoints, its
weight never decreases and never exceeds `1.0`; (2) the same holds for every
single pass; (3) an edge of weight `0.5` boosted by a matching summary with a
causal phrase has weight `0.6` afterwards; (4) the refinement loop halts
immediately after any pass that produces zero modifications. -/
theorem iterative_refine_spec :
    (∀ (db : CoDb) (dag : Dag) (ss : List Summary) (max_iter : ℕ),
      (∀ e ∈ dag.edges, 0 ≤ e.weight ∧ e.weight ≤ 1) →
      List.Forall₂ (fun e e' : Edge => e.src = e'.src ∧ e.dst = e'.dst ∧
        e.weight ≤ e'.weight ∧ e'.weight ≤ 1)
        dag.edges (iterative_refine db dag ss max_iter).edges) ∧
    (∀ (i : ℕ) (ss : List Summary) (edges : List Edge),
      (∀ e ∈ edges, 0 ≤ e.weight ∧ e.weight ≤ 1) →
      List.Forall₂ (fun e e' : Edge => e.src = e'.src ∧ e.dst = e'.dst ∧
        e.weight ≤ e'.weight ∧ e'.weight ≤ 1) edges (refine_pass i ss edges).1) ∧
    (∀ (i : ℕ) (e : Edge) (s : Summary),
      e.weight = 1 / 2 → edge_matched e s = true →
      (boost_with_summary i e s).1.weight = 3 / 5) ∧
    (∀ (db : CoDb) (ss : List Summary) (fuel i : ℕ) (dag : Dag) (hist : List ModRec),
      (refine_pass i ss dag.edges).2 = [] →
      refine_loop db ss (fuel + 1) i dag hist = (dag, hist)) := by
  refine ⟨?_, refine_pass_forall₂, ?_, refine_loop_halt⟩
  · intro db dag ss max_iter hb
    exact refine_loop_forall₂ db ss max_iter 0 dag [] hb
  · intro i e s hw hm
    obtain ⟨m, heq, _, _, _⟩ := boost_matched_some i e s hm
    have h' := heq
    simp only [edge_matched, Bool.and_eq_true, Bool.or_eq_true, beq_iff_eq] at hm
    obtain ⟨phrase, hphrase⟩ := Option.isSome_iff_exists.1 hm.2
    have : (boost_with_summary i e s).1.weight = min 1 (e.weight * (6 / 5)) := by
      unfold boost_with_summary
      rw [if_pos hm.1, hphrase]
    rw [this, hw]
    norm_num

/-- Witness for C5: a weight-`0.5` edge matched by a causal-phrase summary is
boosted to `0.6`; a pass over a non-matching summary halts the loop at once. -/
theorem iterative_refine_spec_witness :
    (boost_with_summary 0 edge_half s_causes).1.weight = 3 / 5 ∧
    refine_loop codb_empty [] 3 0 dag_ab [] = (dag_ab, []) :=
  ⟨iterative_refine_spec.2.2.1 0 edge_half s_causes rfl rfl,
   iterative_refine_spec.2.2.2 codb_empty [] 2 0 dag_ab [] rfl⟩

/-! ## C10: saturation of the refinement loop -/

/-- **C10** (confirmed). (1) A boost applied to an edge whose weight is
already `1.0` still emits a modification record (with `new_weight =
old_weight = 1`), so a clamped no-op boost still counts as a modification;
(2) whenever some summary matches an edge endpoint case-insensitively and
contains a causal phrase, every pass modifies, so the history of
`iterative_refine` contains records of every iteration `0 .. max_iter - 1`
(all passes run); (3) when no summary matches any edge, the loop stops after
the first pass, returning the graph unchanged with an empty history. -/
theorem iterative_refine_saturation :
    (∀ (i : ℕ) (e : Edge) (s : Summary),
      e.weight = 1 → edge_matched e s = true →
      ∃ m, (boost_with_summary i e s).2 = some m ∧
        m.old_weight = 1 ∧ m.new_weight = 1) ∧
    (∀ (db : CoDb) (dag : Dag) (ss : List Summary) (max_iter : ℕ),
      (∃ e ∈ dag.edges, ∃ s ∈ ss, edge_matched e s = true) →
      ∀ k, k < max_iter →
        ∃ m ∈ (iterative_refine db dag ss max_iter).modification_history,
          m.iteration = k) ∧
    (∀ (db : CoDb) (dag : Dag) (ss : List Summary) (max_iter : ℕ),
      (∀ e ∈ dag.edges, ∀ s ∈ ss, edge_matched e s = false) →
      iterative_refine db dag ss max_iter = { dag with modification_history := [] }) := by
  refine ⟨?_, ?_, ?_⟩
  · intro i e s hw hm
    obtain ⟨m, heq, hmi, hold, hnew⟩ := boost_matched_some i e s hm
    refine ⟨m, heq, by rw [hold, hw], ?_⟩
    rw [hnew, hw]
    norm_num
  · intro db dag ss max_iter h k hk
    show ∃ m ∈ (refine_loop db ss max_iter 0 dag []).2, m.iteration = k
    exact refine_loop_iters db ss max_iter 0 dag [] h k (Nat.zero_le k) (by omega)
  · intro db dag ss max_iter h
    cases max_iter with
    | zero => rfl
    | succ m =>
      have hp : (refine_pass 0 ss dag.edges).2 = [] :=
        congrArg Prod.snd (refine_pass_no_match 0 ss dag.edges (h ·))
      have hl : refine_loop db ss (m + 1) 0 dag [] = (dag, []) :=
        refine_loop_halt db ss m 0 dag [] hp
      show { (refine_loop db ss (m + 1) 0 dag []).1 with
        modification_history := (refine_loop db ss (m + 1) 0 dag []).2 } = _
      rw [hl]

/-- Witness for C10: a weight-`1.0` edge still yields a record; with one
matching summary, the three-pass run records iterations `0`, `1` and `2`. -/
theorem iterative_refine_saturation_witness :
    (∃ m, (boost_with_summary 0 edge_full s_causes).2 = some m ∧
      m.old_weight = 1 ∧ m.new_weight = 1) ∧
    (∃ m ∈ (iterative_refine codb_empty dag_ab [s_causes] 3).modification_history,
      m.iteration = 2) :=
  ⟨iterative_refine_saturation.1 0 edge_full s_causes rfl rfl,
   iterative_refine_saturation.2.1 codb_empty dag_ab [s_causes] 3
     ⟨edge_half, List.mem_singleton.2 rfl, s_causes, List.mem_singleton.2 rfl, rfl⟩
     2 (by omega)⟩

/-! ## Stable-sort lemmas shared by C6 and C4 -/

theorem py_insert_perm (le : α → α → Bool) (x : α) :
    ∀ l : List α, (py_insert le x l).Perm (x :: l) := by
  intro l
  induction l with
  | nil => exact List.Perm.refl _
  | cons y ys ih =>
    unfold py_insert
    by_cases h : le x y = true
    · rw [if_pos h]
    · rw [if_neg h]
      exact (ih.cons y).trans (List.Perm.swap x y ys)

theorem py_sort_perm (le : α → α → Bool) : ∀ l : List α, (py_sort le l).Perm l := by
  intro l
  induction l with
  | nil => exact List.Perm.refl _
  | cons x xs ih => exact (py_insert_perm le x (py_sort le xs)).trans (ih.cons x)

theorem py_insert_sorted (le : α → α → Bool)
    (htrans : ∀ a b c, le a b = true → le b c = true → le a c = true)
    (htot : ∀ a b, le a b = true ∨ le b a = true) (x : α) :
    ∀ l : List α, List.Pairwise (fun a b => le a b = true) l →
      List.Pairwise (fun a b => le a b = true) (py_insert le x l) := by
  intro l
  induction l with
  | nil => intro _; exact List.pairwise_singleton _ x
  | cons y ys ih =>
    intro hs
    unfold py_insert
    by_cases h : le x y = true
    · rw [if_pos h]
      refine List.Pairwise.cons ?_ hs
      intro b hb
      rcases List.mem_cons.1 hb with rfl | hb
      · exact h
      · exact htrans x y b h (List.rel_of_pairwise_cons hs hb)
    · rw [if_neg h]
      have hyx : le y x = true := (htot x y).resolve_left h
      refine List.Pairwise.cons ?_ (ih (List.Pairwise.of_cons hs))
      intro b hb
      have hb' := (py_insert_perm le x ys).mem_iff.1 hb
      rcases List.mem_cons.1 hb' with rfl | hb'
      · exact hyx
      · exact List.rel_of_pairwise_cons hs hb'

theorem py_sort_sorted (le : α → α → Bool)
    (htrans : ∀ a b c, le a b = true → le b c = true → le a c = true)
    (htot : ∀ a b, le a b = true ∨ le b a = true) :
    ∀ l : List α, List.Pairwise (fun a b => le a b = true) (py_sort le l) := by
  intro l
  induction l with
  | nil => exact List.Pairwise.nil
  | cons x xs ih => exact py_insert_sorted le htrans htot x _ ih

theorem py_insert_map (f : α → β) (le : α → α → Bool) (le' : β → β → Bool)
    (h : ∀ a b, le a b = le' (f a) (f b)) (x : α) :
    ∀ l : List α, (py_insert le x l).map f = py_insert le' (f x) (l.map f) := by
  intro l
  induction l with
  | nil => rfl
  | cons y ys ih =>
    show (if le x y then x :: y :: ys else y :: py_insert le x ys).map f =
      if le' (f x) (f y) then f x :: f y :: ys.map f else f y :: py_insert le' (f x) (ys.map f)
    rw [← h x y]
    by_cases hc : le x y = true
    · rw [if_pos hc, if_pos hc]
      rfl
    · rw [if_neg hc, if_neg hc]
      show f y :: (py_insert le x ys).map f = _
      rw [ih]

theorem py_sort_map (f : α → β) (le : α → α → Bool) (le' : β → β → Bool)
    (h : ∀ a b, le a b = le' (f a) (f b)) :
    ∀ l : List α, (py_sort le l).map f = py_sort le' (l.map f) := by
  intro l
  induction l with
  | nil => rfl
  | cons x xs ih =>
    show (py_insert le x (py_sort le xs)).map f = py_insert le' (f x) (py_sort le' (xs.map f))
    rw [py_insert_map f le le' h, ih]

/-! ## Candidate-dict lemmas for C6 -/

theorem upsert_provenance (key : String) (p : ℚ) :
    ∀ (m : List (String × ℚ)) (kp : String × ℚ),
      kp ∈ upsert_candidate m key p → kp ∈ m ∨ kp = (key, p) := by
  intro m
  induction m with
  | nil =>
    intro kp h
    simp only [upsert_candidate] at h
    exact Or.inr (List.mem_singleton.1 h)
  | cons hd tl ih =>
    intro kp h
    rw [show upsert_candidate (hd :: tl) key p =
      if hd.1 = key then (if hd.2 < p then (key, p) else hd) :: tl
      else hd :: upsert_candidate tl key p from by rw [upsert_candidate]] at h
    by_cases hc : hd.1 = key
    · rw [if_pos hc] at h
      rcases List.mem_cons.1 h with rfl | hmem
      · by_cases hlt : hd.2 < p
        · rw [if_pos hlt]; exact Or.inr rfl
        · rw [if_neg hlt]; exact Or.inl (List.mem_cons_self _ _)
      · exact Or.inl (List.mem_cons_of_mem _ hmem)
    · rw [if_neg hc] at h
      rcases List.mem_cons.1 h with rfl | hmem
      · exact Or.inl (List.mem_cons_self _ _)
      · rcases ih kp hmem with h' | h'
        · exact Or.inl (List.mem_cons_of_mem _ h')
        · exact Or.inr h'

theorem upsert_keys (key : String) (p : ℚ) :
    ∀ m : List (String × ℚ), (upsert_candidate m key p).map Prod.fst =
      if key ∈ m.map Prod.fst then m.map Prod.fst else m.map Prod.fst ++ [key] := by
  intro m
  induction m with
  | nil => rfl
  | cons hd tl ih =>
    rw [show upsert_candidate (hd :: tl) key p =
      if hd.1 = key then (if hd.2 < p then (key, p) else hd) :: tl
      else hd :: upsert_candidate tl key p from by rw [upsert_candidate]]
    by_cases hc : hd.1 = key
    · rw [if_pos hc]
      have hmem : key ∈ (hd :: tl).map Prod.fst := by
        rw [List.map_cons, hc]
        exact List.mem_cons_self _ _
      rw [if_pos hmem]
      by_cases hlt : hd.2 < p
      · rw [if_pos hlt, List.map_cons, List.map_cons, hc]
      · rw [if_neg hlt]
    · rw [if_neg hc, List.map_cons, List.map_cons, ih]
      by_cases hmem : key ∈ tl.map Prod.fst
      · rw [if_pos hmem, if_pos (List.mem_cons_of_mem _ hmem)]
      · rw [if_neg hmem, if_neg ?_]
        · rfl
        · intro hcon
          rcases List.mem_cons.1 hcon with h' | h'
          · exact hc h'.symm
          · exact hmem h'

theorem upsert_nodup (key : String) (p : ℚ) (m : List (String × ℚ))
    (h : (m.map Prod.fst).Nodup) : ((upsert_candidate m key p).map Prod.fst).Nodup := by
  rw [upsert_keys]
  by_cases hc : key ∈ m.map Prod.fst
  · rw [if_pos hc]; exact h
  · rw [if_neg hc]
    rw [List.nodup_append]
    exact ⟨h, List.nodup_singleton key, by simpa using hc⟩

theorem upsert_other (key : String) (p : ℚ) :
    ∀ (m : List (String × ℚ)) (k : String) (q : ℚ), (k, q) ∈ m → k ≠ key →
      (k, q) ∈ upsert_candidate m key p := by
  intro m
  induction m with
  | nil => intro k q h _; simp at h
  | cons hd tl ih =>
    intro k q h hk
    rw [show upsert_candidate (hd :: tl) key p =
      if hd.1 = key then (if hd.2 < p then (key, p) else hd) :: tl
      else hd :: upsert_candidate tl key p from by rw [upsert_candidate]]
    by_cases hc : hd.1 = key
    · rw [if_pos hc]
      rcases List.mem_cons.1 h with rfl | hmem
      · exact absurd hc hk
      · exact List.mem_cons_of_mem _ hmem
    · rw [if_neg hc]
      rcases List.mem_cons.1 h with rfl | hmem
      · exact List.mem_cons_self _ _
      · exact List.mem_cons_of_mem _ (ih k q hmem hk)

theorem upsert_self (key : String) (p : ℚ) :
    ∀ m : List (String × ℚ), (m.map Prod.fst).Nodup →
      ∃ v, (key, v) ∈ upsert_candidate m key p ∧ p ≤ v ∧
        ∀ q, (key, q) ∈ m → q ≤ v := by
  intro m
  induction m with
  | nil =>
    intro _
    exact ⟨p, List.mem_singleton.2 rfl, le_refl p, fun q hq => by simp at hq⟩
  | cons hd tl ih =>
    intro hn
    rw [List.map_cons, List.nodup_cons] at hn
    rw [show upsert_candidate (hd :: tl) key p =
      if hd.1 = key then (if hd.2 < p then (key, p) else hd) :: tl
      else hd :: upsert_candidate tl key p from by rw [upsert_candidate]]
    by_cases hc : hd.1 = key
    · rw [if_pos hc]
      by_cases hlt : hd.2 < p
      · rw [if_pos hlt]
        refine ⟨p, List.mem_cons_self _ _, le_refl p, fun q hq => ?_⟩
        rcases List.mem_cons.1 hq with h' | h'
        · have hq2 : q = hd.2 := congrArg Prod.snd h'
          rw [hq2]
          exact le_of_lt hlt
        · exact absurd (List.mem_map.2 ⟨(key, q), h', rfl⟩) (hc ▸ hn.1)
      · rw [if_neg hlt]
        refine ⟨hd.2, by rw [← hc]; exact List.mem_cons_self _ _, not_lt.1 hlt,
          fun q hq => ?_⟩
        rcases List.mem_cons.1 hq with h' | h'
        · exact le_of_eq (congrArg Prod.snd h')
        · exact absurd (List.mem_map.2 ⟨(key, q), h', rfl⟩) (hc ▸ hn.1)
    · rw [if_neg hc]
      obtain ⟨v, hv, hpv, hub⟩ := ih hn.2
      refine ⟨v, List.mem_cons_of_mem _ hv, hpv, fun q hq => ?_⟩
      rcases List.mem_cons.1 hq with h' | h'
      · exact absurd (congrArg Prod.fst h'.symm) hc
      · exact hub q h'

theorem nodup_key_unique :
    ∀ m : List (String × ℚ), (m.map Prod.fst).Nodup →
      ∀ k p q, (k, p) ∈ m → (k, q) ∈ m → p = q := by
  intro m
  induction m with
  | nil => intro _ k p q h _; simp at h
  | cons hd tl ih =>
    intro hn k p q hp hq
    rw [List.map_cons, List.nodup_cons] at hn
    rcases List.mem_cons.1 hp with hp' | hp' <;> rcases List.mem_cons.1 hq with hq' | hq'
    · exact congrArg Prod.snd (hp'.trans hq'.symm)
    · have hk1 : k = hd.1 := congrArg Prod.fst hp'
      exact absurd (List.mem_map.2 ⟨(k, q), hq', hk1⟩) hn.1
    · have hk1 : k = hd.1 := congrArg Prod.fst hq'
      exact absurd (List.mem_map.2 ⟨(k, p), hp', hk1⟩) hn.1
    · exact ih hn.2 k p q hp' hq'

theorem upsert_all_nodup :
    ∀ (ps : List (String × ℚ)) (m : List (String × ℚ)),
      (m.map Prod.fst).Nodup → ((upsert_all m ps).map Prod.fst).Nodup := by
  intro ps
  induction ps with
  | nil => intro m h; exact h
  | cons tp ps ih =>
    intro m h
    exact ih (upsert_candidate m tp.1 tp.2) (upsert_nodup tp.1 tp.2 m h)

theorem upsert_all_provenance :
    ∀ (ps : List (String × ℚ)) (m : List (String × ℚ)) (kp : String × ℚ),
      kp ∈ upsert_all m ps → kp ∈ m ∨ kp ∈ ps := by
  intro ps
  induction ps with
  | nil => intro m kp h; exact Or.inl h
  | cons tp ps ih =>
    intro m kp h
    rcases ih (upsert_candidate m tp.1 tp.2) kp h with h' | h'
    · rcases upsert_provenance tp.1 tp.2 m kp h' with h'' | h''
      · exact Or.inl h''
      · refine Or.inr (List.mem_cons.2 (Or.inl ?_))
        rw [h'']
    · exact Or.inr (List.mem_cons_of_mem _ h')

theorem upsert_all_ub :
    ∀ (ps : List (String × ℚ)) (m : List (String × ℚ)),
      (m.map Prod.fst).Nodup → ∀ k p, (k, p) ∈ upsert_all m ps →
        (∀ q, (k, q) ∈ m → q ≤ p) ∧ (∀ q, (k, q) ∈ ps → q ≤ p) := by
  intro ps
  induction ps with
  | nil =>
    intro m hn k p h
    exact ⟨fun q hq => le_of_eq (nodup_key_unique m hn k q p hq h),
      fun q hq => by simp at hq⟩
  | cons tp ps ih =>
    intro m hn k p h
    have hn' := upsert_nodup tp.1 tp.2 m hn
    obtain ⟨ubm', ubps⟩ := ih (upsert_candidate m tp.1 tp.2) hn' k p h
    constructor
    · intro q hq
      by_cases hk : k = tp.1
      · obtain ⟨v, hv, _, hub⟩ := upsert_self tp.1 tp.2 m hn
        have hq2 : (tp.1, q) ∈ m := by rw [← hk]; exact hq
        have hv2 : (k, v) ∈ upsert_candidate m tp.1 tp.2 := by rw [hk]; exact hv
        exact le_trans (hub q hq2) (ubm' v hv2)
      · exact ubm' q (upsert_other tp.1 tp.2 m k q hq hk)
    · intro q hq
      rcases List.mem_cons.1 hq with hq' | hq'
      · have hk : tp.1 = k := congrArg Prod.fst hq'.symm
        have hv2 : tp.2 = q := congrArg Prod.snd hq'.symm
        obtain ⟨v, hv, hpv, _⟩ := upsert_self tp.1 tp.2 m hn
        have : v ≤ p := ubm' v (hk ▸ hv)
        exact le_trans (hv2 ▸ hpv) this
      · exact ubps q hq'

theorem upsert_all_append (m : List (String × ℚ)) (a b : List (String × ℚ)) :
    upsert_all m (a ++ b) = upsert_all (upsert_all m a) b := by
  unfold upsert_all
  rw [List.foldl_append]

theorem build_cands_foldl (tm : List TRow) (eps : ℚ) :
    ∀ (current : List String) (acc : List (String × ℚ)),
      current.foldl (fun acc d => upsert_all acc (query_transitions tm d eps)) acc =
        upsert_all acc (current.flatMap fun d => query_transitions tm d eps) := by
  intro current
  induction current with
  | nil => intro acc; rfl
  | cons d ds ih =>
    intro acc
    show ds.foldl _ (upsert_all acc (query_transitions tm d eps)) = _
    rw [ih, List.flatMap_cons, upsert_all_append]

theorem mem_query_transitions (tm : List TRow) (d : String) (eps : ℚ) (k : String) (p : ℚ) :
    (k, p) ∈ query_transitions tm d eps ↔
      ∃ r ∈ tm, r.from_d = d ∧ eps < r.prob ∧ r.to_d = k ∧ r.prob = p := by
  unfold query_transitions
  constructor
  · intro h
    obtain ⟨r, hr, heq⟩ := List.mem_map.1 h
    have hr' := (py_sort_perm _ _).mem_iff.1 hr
    rw [List.mem_filter] at hr'
    have hcond := of_decide_eq_true hr'.2
    exact ⟨r, hr'.1, hcond.1, hcond.2, congrArg Prod.fst heq, congrArg Prod.snd heq⟩
  · rintro ⟨r, hr, h1, h2, h3, h4⟩
    refine List.mem_map.2 ⟨r, (py_sort_perm _ _).mem_iff.2 (List.mem_filter.2
      ⟨hr, decide_eq_true ⟨h1, h2⟩⟩), ?_⟩
    rw [h3, h4]

/-! ## C6: candidate set -/

/-- **C6** (confirmed). The candidate pairs built by `build_candidate_set`
have no duplicate codes, are sorted by probability non-increasing, every
retained probability is strictly greater than `epsilon`, and the retained
probability of each code is the *maximum* over all transitions into it from
the current diseases (attained by one of them); the returned candidate list
is the codes of those pairs in order. -/
theorem build_candidate_set_spec (tm : List TRow) (current_diseases : List String) (eps : ℚ) :
    (build_candidate_set tm current_diseases eps =
      (build_candidate_pairs tm current_diseases eps).map Prod.fst) ∧
    ((build_candidate_pairs tm current_diseases eps).map Prod.fst).Nodup ∧
    List.Pairwise (fun a b : String × ℚ => b.2 ≤ a.2)
      (build_candidate_pairs tm current_diseases eps) ∧
    (∀ k p, (k, p) ∈ build_candidate_pairs tm current_diseases eps →
      eps < p ∧
      (∃ d ∈ current_diseases, ∃ r ∈ tm, r.from_d = d ∧ r.to_d = k ∧ r.prob = p) ∧
      (∀ r ∈ tm, r.from_d ∈ current_diseases → r.to_d = k → eps < r.prob → r.prob ≤ p)) := by
  have hpairs : build_candidate_pairs tm current_diseases eps =
      py_sort (fun a b => decide (b.2 ≤ a.2))
        (upsert_all [] (current_diseases.flatMap fun d => query_transitions tm d eps)) := by
    unfold build_candidate_pairs
    rw [build_cands_foldl]
  have hnodup0 : ((upsert_all []
      (current_diseases.flatMap fun d => query_transitions tm d eps)).map Prod.fst).Nodup :=
    upsert_all_nodup _ [] List.nodup_nil
  have hperm : (build_candidate_pairs tm current_diseases eps).Perm
      (upsert_all [] (current_diseases.flatMap fun d => query_transitions tm d eps)) := by
    rw [hpairs]
    exact py_sort_perm _ _
  refine ⟨rfl, ?_, ?_, ?_⟩
  · exact ((hperm.map Prod.fst).nodup_iff).2 hnodup0
  · rw [hpairs]
    have hs := py_sort_sorted (fun a b : String × ℚ => decide (b.2 ≤ a.2))
      (fun a b c h1 h2 => decide_eq_true
        (le_trans (of_decide_eq_true h2) (of_decide_eq_true h1)))
      (fun a b => by
        rcases le_total b.2 a.2 with h | h
        · exact Or.inl (decide_eq_true h)
        · exact Or.inr (decide_eq_true h))
      (upsert_all [] (current_diseases.flatMap fun d => query_transitions tm d eps))
    exact hs.imp fun h => of_decide_eq_true h
  · intro k p hmem
    have hmem0 : (k, p) ∈ upsert_all []
        (current_diseases.flatMap fun d => query_transitions tm d eps) :=
      hperm.mem_iff.1 hmem
    have hqual : (k, p) ∈ current_diseases.flatMap fun d => query_transitions tm d eps := by
      rcases upsert_all_provenance _ [] (k, p) hmem0 with h' | h'
      · simp at h'
      · exact h'
    obtain ⟨d, hd, hq⟩ := List.mem_flatMap.1 hqual
    obtain ⟨r, hr, hr1, hr2, hr3, hr4⟩ := (mem_query_transitions tm d eps k p).1 hq
    refine ⟨hr4 ▸ hr2, ⟨d, hd, r, hr, hr1, hr3, hr4⟩, ?_⟩
    intro r' hr' hfrom hto heps
    have hub := (upsert_all_ub _ [] List.nodup_nil k p hmem0).2
    refine hub r'.prob (List.mem_flatMap.2 ⟨r'.from_d, hfrom, ?_⟩)
    exact (mem_query_transitions tm r'.from_d eps k r'.prob).2
      ⟨r', hr', rfl, heps, hto, rfl⟩

/-- Witness for C6 at a concrete transition matrix with a duplicate target
(`X` is reachable from both `A` and `B`; the larger probability is retained). -/
theorem build_candidate_set_spec_witness :
    build_candidate_set [⟨"A", "X", 2⟩, ⟨"B", "X", 3⟩, ⟨"A", "Y", 1⟩] ["A", "B"] 0 =
      (build_candidate_pairs [⟨"A", "X", 2⟩, ⟨"B", "X", 3⟩, ⟨"A", "Y", 1⟩]
        ["A", "B"] 0).map Prod.fst ∧
    (0 : ℚ) < 3 ∧
    ∀ r ∈ [(⟨"A", "X", 2⟩ : TRow), ⟨"B", "X", 3⟩, ⟨"A", "Y", 1⟩],
      r.from_d ∈ ["A", "B"] → r.to_d = "X" → (0 : ℚ) < r.prob → r.prob ≤ 3 :=
  ⟨(build_candidate_set_spec _ _ _).1,
   by norm_num,
   ((build_candidate_set_spec [⟨"A", "X", 2⟩, ⟨"B", "X", 3⟩, ⟨"A", "Y", 1⟩]
      ["A", "B"] 0).2.2.2 "X" 3 (by decide)).2.2⟩

/-! ## Ranking lemmas for C4 -/

theorem assign_ranks_mem :
    ∀ (l : List PredEntry) (n : ℕ) (p : PredEntry), p ∈ assign_ranks n l →
      ∃ q ∈ l, p = { q with rank := p.rank } := by
  intro l
  induction l with
  | nil => intro n p h; simp [assign_ranks] at h
  | cons c cs ih =>
    intro n p h
    rcases List.mem_cons.1 h with h' | h'
    · exact ⟨c, List.mem_cons_self _ _, by rw [h']⟩
    · obtain ⟨q, hq, hpq⟩ := ih (n + 1) p h'
      exact ⟨q, List.mem_cons_of_mem _ hq, hpq⟩

theorem assign_ranks_ranks :
    ∀ (l : List PredEntry) (n : ℕ),
      (assign_ranks n l).map PredEntry.rank = List.range' n l.length := by
  intro l
  induction l with
  | nil => intro n; rfl
  | cons c cs ih =>
    intro n
    show n :: (assign_ranks (n + 1) cs).map PredEntry.rank = List.range' n (cs.length + 1)
    rw [ih (n + 1), List.range'_succ]

theorem assign_ranks_pairwise (R : ℚ → ℚ → Prop) :
    ∀ (l : List PredEntry) (n : ℕ),
      List.Pairwise (fun a b : PredEntry => R a.score b.score) l →
      List.Pairwise (fun a b : PredEntry => R a.score b.score) (assign_ranks n l) := by
  intro l
  induction l with
  | nil => intro n _; exact List.Pairwise.nil
  | cons c cs ih =>
    intro n h
    rw [List.pairwise_cons] at h
    refine List.Pairwise.cons ?_ (ih (n + 1) h.2)
    intro b hb
    obtain ⟨q, hq, hbq⟩ := assign_ranks_mem cs (n + 1) b hb
    have : b.score = q.score := by rw [hbq]
    rw [this]
    exact h.1 q hq

theorem assign_ranks_map_core :
    ∀ (l l' : List PredEntry) (n : ℕ), l.map pred_core = l'.map pred_core →
      (assign_ranks n l).map pred_core = (assign_ranks n l').map pred_core := by
  intro l
  induction l with
  | nil =>
    intro l' n h
    cases l' with
    | nil => rfl
    | cons c cs => simp at h
  | cons c cs ih =>
    intro l' n h
    cases l' with
    | nil => simp at h
    | cons c' cs' =>
      rw [List.map_cons, List.map_cons] at h
      injection h with h1 h2
      show pred_core { c with rank := n } :: (assign_ranks (n + 1) cs).map pred_core =
        pred_core { c' with rank := n } :: (assign_ranks (n + 1) cs').map pred_core
      rw [ih cs' (n + 1) h2]
      have hcc : pred_core { c with rank := n } = pred_core { c' with rank := n } := by
        unfold pred_core at h1 ⊢
        simp only [Prod.mk.injEq] at h1 ⊢
        exact ⟨h1.1, h1.2.1, h1.2.2.1, h1.2.2.2.1, h1.2.2.2.2.1, trivial⟩
      rw [hcc]

theorem range'_take : ∀ (n s m : ℕ), (List.range' s n).take m = List.range' s (min m n) := by
  intro n
  induction n with
  | zero => intro s m; simp
  | succ n ih =>
    intro s m
    cases m with
    | zero => simp
    | succ m =>
      rw [List.range'_succ, List.take_succ_cons, ih (s + 1) m]
      have hmin : min (m + 1) (n + 1) = min m n + 1 := by omega
      rw [hmin, List.range'_succ]

theorem assign_ranks_length :
    ∀ (l : List PredEntry) (n : ℕ), (assign_ranks n l).length = l.length := by
  intro l
  induction l with
  | nil => intro n; rfl
  | cons c cs ih => intro n; show (assign_ranks (n + 1) cs).length + 1 = cs.length + 1; rw [ih]

/-! ## C4: deterministic fallback ranking -/

/-- **C4** (confirmed). In the deterministic fallback: every prediction's
final score is `round3(0.6*transition + 0.3*docSimilarity +
0.1*clinicianBoost)` for its candidate — a formula without any DAG term —
while `dag_score` is reported alongside; the prediction list (up to the
reported `dag_score`) is entirely independent of the graph; predictions are
sorted by final score non-increasing; ranks are exactly `1..N` in order; and
the documented instance `0.6·0.5 + 0.3·0.8 + 0.1·0.2 = 0.56` holds. -/
theorem deterministic_fallback_spec (ps : String) (candidates : List (String × ℚ))
    (dag : Dag) (summaries : List Summary) (comment : String) :
    (∀ p ∈ (deterministic_fallback ps candidates dag summaries comment).predictions,
      ∃ c ∈ candidates, p.code = c.1 ∧
        p.score = round3 ((3 / 5) * c.2 +
          (3 / 10) * dict_get (build_similarity_map summaries) c.1 0 +
          (1 / 10) * clinician_boost_for comment c.1) ∧
        p.dag_score = round3 (dag_score_for dag c.1)) ∧
    (∀ dag' : Dag,
      (deterministic_fallback ps candidates dag summaries comment).predictions.map pred_core =
      (deterministic_fallback ps candidates dag' summaries comment).predictions.map pred_core) ∧
    List.Pairwise (fun a b : PredEntry => b.score ≤ a.score)
      (deterministic_fallback ps candidates dag summaries comment).predictions ∧
    ((deterministic_fallback ps candidates dag summaries comment).predictions.map
        PredEntry.rank =
      List.range' 1
        (deterministic_fallback ps candidates dag summaries comment).predictions.length) ∧
    (∀ dagc : Dag, (score_candidate (build_similarity_map [sim_summary]) "check kidney" dagc
      ("N18.9", 1 / 2)).score = 56 / 100) := by
  have hpred : ∀ d : Dag,
      (deterministic_fallback ps candidates d summaries comment).predictions =
      (assign_ranks 1 (py_sort (fun a b : PredEntry => decide (b.score ≤ a.score))
        (candidates.map
          (score_candidate (build_similarity_map summaries) comment d)))).take 10 :=
    fun d => rfl
  refine ⟨?_, ?_, ?_, ?_, ?_⟩
  · intro p hp
    rw [hpred dag] at hp
    obtain ⟨q, hq, hpq⟩ := assign_ranks_mem _ 1 p (List.mem_of_mem_take hp)
    have hq' := (py_sort_perm (fun a b : PredEntry => decide (b.score ≤ a.score)) _).mem_iff.1 hq
    obtain ⟨c, hc, hqc⟩ := List.mem_map.1 hq'
    refine ⟨c, hc, ?_, ?_, ?_⟩
    · have h1 : p.code = q.code := by rw [hpq]
      rw [h1, ← hqc]
      rfl
    · have h1 : p.score = q.score := by rw [hpq]
      rw [h1, ← hqc]
      rfl
    · have h1 : p.dag_score = q.dag_score := by rw [hpq]
      rw [h1, ← hqc]
      rfl
  · intro dag'
    rw [hpred dag, hpred dag', List.map_take, List.map_take]
    have hscored : (candidates.map
        (score_candidate (build_similarity_map summaries) comment dag)).map pred_core =
        (candidates.map
          (score_candidate (build_similarity_map summaries) comment dag')).map pred_core := by
      rw [List.map_map, List.map_map]
      exact List.map_congr_left fun c _ => rfl
    have hsorted : (py_sort (fun a b : PredEntry => decide (b.score ≤ a.score))
        (candidates.map (score_candidate (build_similarity_map summaries) comment dag))).map
          pred_core =
        (py_sort (fun a b : PredEntry => decide (b.score ≤ a.score))
          (candidates.map
            (score_candidate (build_similarity_map summaries) comment dag'))).map pred_core := by
      rw [py_sort_map pred_core (fun a b : PredEntry => decide (b.score ≤ a.score))
          (fun x y => decide (y.2.1 ≤ x.2.1)) (fun a b => rfl),
        py_sort_map pred_core (fun a b : PredEntry => decide (b.score ≤ a.score))
          (fun x y => decide (y.2.1 ≤ x.2.1)) (fun a b => rfl), hscored]
    rw [assign_ranks_map_core _ _ 1 hsorted]
  · rw [hpred dag]
    refine List.Pairwise.sublist (List.take_sublist _ _) ?_
    refine assign_ranks_pairwise (fun x y => y ≤ x) _ 1 ?_
    have hs := py_sort_sorted (fun a b : PredEntry => decide (b.score ≤ a.score))
      (fun a b c h1 h2 => decide_eq_true
        (le_trans (of_decide_eq_true h2) (of_decide_eq_true h1)))
      (fun a b => by
        rcases le_total b.score a.score with h | h
        · exact Or.inl (decide_eq_true h)
        · exact Or.inr (decide_eq_true h))
      (candidates.map (score_candidate (build_similarity_map summaries) comment dag))
    exact hs.imp fun h => of_decide_eq_true h
  · rw [hpred dag, List.map_take, assign_ranks_ranks, range'_take, List.length_take,
      assign_ranks_length]
  · intro dagc
    have h1 : dict_get (build_similarity_map [sim_summary]) "N18.9" 0 = 4 / 5 := rfl
    have h2 : clinician_boost_for "check kidney" "N18.9" = 1 / 5 := rfl
    show round3 ((3 / 5) * (1 / 2) +
      (3 / 10) * dict_get (build_similarity_map [sim_summary]) "N18.9" 0 +
      (1 / 10) * clinician_boost_for "check kidney" "N18.9") = 56 / 100
    rw [h1, h2]
    norm_num [round3, round_eq]

/-- Witness for C4: a single zero-score candidate flows through the fallback
with rank 1 and the formula score, and the `0.56` instance holds. -/
theorem deterministic_fallback_spec_witness :
    (∃ c ∈ [("A", (0 : ℚ))],
      ({ code := "A", score := 0, transition_score := 0, doc_similarity := 0,
         dag_score := 0, clinician_boost := 0, rank := 1 } : PredEntry).code = c.1 ∧
      ({ code := "A", score := 0, transition_score := 0, doc_similarity := 0,
         dag_score := 0, clinician_boost := 0, rank := 1 } : PredEntry).score =
        round3 ((3 / 5) * c.2 + (3 / 10) * dict_get (build_similarity_map []) c.1 0 +
          (1 / 10) * clinician_boost_for "" c.1) ∧
      ({ code := "A", score := 0, transition_score := 0, doc_similarity := 0,
         dag_score := 0, clinician_boost := 0, rank := 1 } : PredEntry).dag_score =
        round3 (dag_score_for {} c.1)) ∧
    (score_candidate (build_similarity_map [sim_summary]) "check kidney" {}
      ("N18.9", 1 / 2)).score = 56 / 100 := by
  have hz1 : dict_get (build_similarity_map []) "A" 0 = 0 := rfl
  have hz2 : clinician_boost_for "" "A" = 0 := rfl
  have hz3 : dag_score_for {} "A" = 0 := rfl
  have hc : score_candidate (build_similarity_map []) "" {} ("A", (0 : ℚ)) =
      { code := "A", score := 0, transition_score := 0, doc_similarity := 0,
        dag_score := 0, clinician_boost := 0 } := by
    simp only [score_candidate]
    rw [hz1, hz2, hz3]
    norm_num [PredEntry.mk.injEq, round3, round_eq]
  constructor
  · refine (deterministic_fallback_spec "ps" [("A", 0)] {} [] "").1 _ ?_
    have hl : (deterministic_fallback "ps" [("A", (0 : ℚ))] {} [] "").predictions =
        [{ code := "A", score := 0, transition_score := 0, doc_similarity := 0,
           dag_score := 0, clinician_boost := 0, rank := 1 }] := by
      have step1 : (deterministic_fallback "ps" [("A", (0 : ℚ))] {} [] "").predictions
          = [{ score_candidate (build_similarity_map []) "" {} ("A", (0 : ℚ)) with
                rank := 1 }] := rfl
      rw [step1, hc]
    rw [hl]
    exact List.mem_singleton.2 rfl
  · exact (deterministic_fallback_spec "ps" [("A", 0)] {} [] "").2.2.2.2 {}

/-! ## Parse-cascade lemmas for C7 -/

theorem try_stage_eq_some (s : String) (w : PyVal) (hj : json_loads s = some w) :
    try_stage s = Except.bind (validate_output w)
      (fun b => Except.ok (if b then some w else none)) := by
  unfold try_stage
  rw [hj]
  rfl

theorem try_stage_ok (s : String) (v : PyVal) (h : try_stage s = .ok (some v)) :
    validate_output v = .ok true := by
  cases hj : json_loads s with
  | none =>
    unfold try_stage at h
    rw [hj] at h
    simp at h
  | some w =>
    rw [try_stage_eq_some s w hj] at h
    cases hv : validate_output w with
    | error e =>
      rw [hv] at h
      simp [Except.bind] at h
    | ok b =>
      rw [hv] at h
      simp only [Except.bind, Except.ok.injEq] at h
      cases b with
      | false => simp at h
      | true =>
        simp at h
        rw [← h]
        exact hv

theorem first_block_none : ∀ cs : List Char, (∀ c ∈ cs, c ≠ '{') →
    first_nonnested_block cs = none := by
  intro cs
  induction cs with
  | nil => intro _; rfl
  | cons c rest ih =>
    intro h
    unfold first_nonnested_block
    rw [if_neg (h c (List.mem_cons_self _ _))]
    exact ih (fun c' hc' => h c' (List.mem_cons_of_mem _ hc'))

theorem greedy_block_none : ∀ cs : List Char, (∀ c ∈ cs, c ≠ '{') →
    greedy_block cs = none := by
  intro cs
  induction cs with
  | nil => intro _; rfl
  | cons c rest ih =>
    intro h
    unfold greedy_block
    rw [if_neg (h c (List.mem_cons_self _ _))]
    exact ih (fun c' hc' => h c' (List.mem_cons_of_mem _ hc'))

theorem sub_comma_close_subset (close : Char) :
    ∀ (fuel : ℕ) (cs : List Char) (c : Char),
      c ∈ sub_comma_close close fuel cs → c = close ∨ c ∈ cs := by
  intro fuel
  induction fuel with
  | zero => intro cs c h; exact Or.inr h
  | succ fuel ih =>
    intro cs c h
    cases cs with
    | nil => simp [sub_comma_close] at h
    | cons a rest =>
      have h2 : c ∈ (if a = ',' then
          (match rest.drop (rest.takeWhile py_space).length with
           | c' :: rest' =>
             if c' = close then close :: sub_comma_close close fuel rest'
             else ',' :: sub_comma_close close fuel rest
           | [] => ',' :: sub_comma_close close fuel rest)
          else a :: sub_comma_close close fuel rest) := h
      by_cases ha : a = ','
      · rw [if_pos ha] at h2
        cases hd : rest.drop (rest.takeWhile py_space).length with
        | nil =>
          rw [hd] at h2
          have h3 : c ∈ ',' :: sub_comma_close close fuel rest := h2
          rcases List.mem_cons.1 h3 with rfl | h'
          · rw [ha]; exact Or.inr (List.mem_cons_self _ _)
          · rcases ih rest c h' with h'' | h''
            · exact Or.inl h''
            · exact Or.inr (List.mem_cons_of_mem _ h'')
        | cons c' rest' =>
          rw [hd] at h2
          have h3 : c ∈ (if c' = close then close :: sub_comma_close close fuel rest'
            else ',' :: sub_comma_close close fuel rest) := h2
          by_cases hc' : c' = close
          · rw [if_pos hc'] at h3
            rcases List.mem_cons.1 h3 with rfl | h'
            · exact Or.inl rfl
            · rcases ih rest' c h' with h'' | h''
              · exact Or.inl h''
              · refine Or.inr (List.mem_cons_of_mem _ ?_)
                have hmem : c ∈ rest.drop (rest.takeWhile py_space).length := by
                  rw [hd]
                  exact List.mem_cons_of_mem _ h''
                exact List.drop_subset _ rest hmem
          · rw [if_neg hc'] at h3
            rcases List.mem_cons.1 h3 with rfl | h'
            · rw [ha]; exact Or.inr (List.mem_cons_self _ _)
            · rcases ih rest c h' with h'' | h''
              · exact Or.inl h''
              · exact Or.inr (List.mem_cons_of_mem _ h'')
      · rw [if_neg ha] at h2
        rcases List.mem_cons.1 h2 with rfl | h'
        · exact Or.inr (List.mem_cons_self _ _)
        · rcases ih rest c h' with h'' | h''
          · exact Or.inl h''
          · exact Or.inr (List.mem_cons_of_mem _ h'')

theorem clean_no_brace (s : String) (h : ∀ c ∈ s.data, c ≠ '{') :
    ∀ c ∈ (clean_invalid_tokens s).data, c ≠ '{' := by
  intro c hc
  simp only [clean_invalid_tokens] at hc
  have hc1 := List.mem_of_mem_filter hc
  obtain ⟨c', hc', rfl⟩ := List.mem_map.1 hc1
  have hc2 := sub_comma_close_subset ']' _ _ _ hc'
  intro hcon
  have hne : c' ≠ '{' := by
    rcases hc2 with h' | h'
    · rw [h']; decide
    · rcases sub_comma_close_subset '}' _ _ _ h' with h'' | h''
      · rw [h'']; decide
      · exact h c' h''
  by_cases hq : c' = '\''
  · rw [if_pos hq] at hcon
    exact absurd hcon (by decide)
  · rw [if_neg hq] at hcon
    exact hne hcon

theorem stage_elim (x : Except Unit (Option PyVal))
    (k : Option PyVal → Except Unit (Option PyVal)) (v : PyVal)
    (h : (do let r ← x
             if r.isSome then pure r else k r) = Except.ok (some v)) :
    x = .ok (some v) ∨ (x = .ok none ∧ k none = .ok (some v)) := by
  cases x with
  | error e => simp [Bind.bind, Except.bind] at h
  | ok r =>
    cases r with
    | some w =>
      left
      have h2 : (if (some w : Option PyVal).isSome then
          (pure (some w) : Except Unit (Option PyVal)) else k (some w)) = .ok (some v) := h
      rw [if_pos (show ((some w : Option PyVal)).isSome = true from rfl)] at h2
      exact h2
    | none =>
      right
      have h2 : (if (none : Option PyVal).isSome then
          (pure (none : Option PyVal) : Except Unit (Option PyVal)) else k none) =
          .ok (some v) := h
      rw [if_neg (by simp)] at h2
      exact ⟨rfl, h2⟩

theorem stage_skip (x : Except Unit (Option PyVal))
    (k : Option PyVal → Except Unit (Option PyVal)) (hx : x = .ok none) :
    (do let r ← x
        if r.isSome then pure r else k r) = k none := by
  rw [hx]
  rfl

/-! ## C7: model-output parse cascade (corrected) -/

/-- **C7 counterexample.** The input `"123"` contains no `{`, yet the parser
does not return the `None` sentinel: direct `json.loads` succeeds with the
integer `123`, and `"predictions" in 123` raises a `TypeError` that the
cascade does not catch (only `JSONDecodeError` is), so `_parse_model_output`
raises instead of returning no-result. -/
theorem parse_model_output_cex :
    (∀ c ∈ ("123" : String).data, c ≠ '{') ∧
    json_loads "123" = some (.num 123) ∧
    parse_model_output "123" = .error () :=
  ⟨by decide, rfl, rfl⟩

/-- **C7** (corrected amendment). (1) The single-quote, trailing-comma input
is not directly parseable but is recovered by the cleanup stage and parses
to the expected object; (2) for an input with no `{` character, the
block-extraction stages find nothing, and if neither the raw nor the cleaned
text parses as top-level JSON the parser returns the `None` sentinel — but a
brace-free input that *does* parse directly may instead raise `TypeError`
during validation (see the counterexample) or be accepted; (3) every parse
the cascade accepts has passed key validation (`predictions` and
`explanation`). -/
theorem parse_model_output_amended :
    (parse_model_output cascade_input =
        .ok (some (.dict [("predictions", .list []), ("explanation", .str "ok")])) ∧
      json_loads cascade_input = none) ∧
    (∀ s : String, (∀ c ∈ s.data, c ≠ '{') → json_loads s = none →
      json_loads (clean_invalid_tokens s) = none → parse_model_output s = .ok none) ∧
    (∀ (s : String) (v : PyVal), parse_model_output s = .ok (some v) →
      validate_output v = .ok true) := by
  refine ⟨⟨rfl, rfl⟩, ?_, ?_⟩
  · intro s hbrace hj hcl
    have h1 : try_stage s = .ok none := by
      unfold try_stage
      rw [hj]
    have h4 : try_stage (clean_invalid_tokens s) = .ok none := by
      unfold try_stage
      rw [hcl]
    have h2 := first_block_none s.data hbrace
    have h3 := greedy_block_none s.data hbrace
    have h5 := greedy_block_none (clean_invalid_tokens s).data (clean_no_brace s hbrace)
    unfold parse_model_output
    rw [stage_skip _ _ h1]
    simp only [h2, h3, h5]
    rw [stage_skip (pure none) _ rfl]
    rw [stage_skip (pure none) _ rfl]
    by_cases hne : clean_invalid_tokens s ≠ s
    · rw [if_pos hne, stage_skip _ _ h4, stage_skip (pure none) _ rfl]
      rfl
    · rw [if_neg hne]
      rfl
  · intro s v h
    unfold parse_model_output at h
    rcases stage_elim _ _ v h with h1 | ⟨_, h⟩
    · exact try_stage_ok s v h1
    rcases stage_elim _ _ v h with h2 | ⟨_, h⟩
    · cases hfb : first_nonnested_block s.data with
      | some blk =>
        rw [hfb] at h2
        exact try_stage_ok _ v h2
      | none =>
        rw [hfb] at h2
        have h2' : (pure none : Except Unit (Option PyVal)) = .ok (some v) := h2
        simp [pure, Except.pure] at h2'
    rcases stage_elim _ _ v h with h3 | ⟨_, h⟩
    · cases hgb : greedy_block s.data with
      | some blk =>
        rw [hgb] at h3
        exact try_stage_ok _ v h3
      | none =>
        rw [hgb] at h3
        have h3' : (pure none : Except Unit (Option PyVal)) = .ok (some v) := h3
        simp [pure, Except.pure] at h3'
    by_cases hne : clean_invalid_tokens s ≠ s
    · rw [if_pos hne] at h
      rcases stage_elim _ _ v h with h4 | ⟨_, h⟩
      · exact try_stage_ok _ v h4
      rcases stage_elim _ _ v h with h5 | ⟨_, h⟩
      · cases hgb : greedy_block (clean_invalid_tokens s).data with
        | some blk =>
          rw [hgb] at h5
          exact try_stage_ok _ v h5
        | none =>
          rw [hgb] at h5
          have h5' : (pure none : Except Unit (Option PyVal)) = .ok (some v) := h5
          simp [pure, Except.pure] at h5'
      · have h' : (pure none : Except Unit (Option PyVal)) = .ok (some v) := h
        simp [pure, Except.pure] at h'
    · rw [if_neg hne] at h
      have h' : (pure none : Except Unit (Option PyVal)) = .ok (some v) := h
      simp [pure, Except.pure] at h'

/-- Witness for C7: a brace-free input on which every stage fails returns the
`None` sentinel, and the recovered cascade output passes validation. -/
theorem parse_model_output_amended_witness :
    parse_model_output "hello" = .ok none ∧
    validate_output (.dict [("predictions", .list []), ("explanation", .str "ok")]) =
      .ok true :=
  ⟨parse_model_output_amended.2.1 "hello" (by decide) rfl rfl,
   parse_model_output_amended.2.2 cascade_input _ parse_model_output_amended.1.1⟩
